import Mathlib

/-!
Verification development for the hiMCM sustainability-scoring pipeline
(`himcm/core.py`).  The Python code is shallowly embedded: pandas Series
become `List (Option ℚ)` (with `none` standing for a missing value / NaN,
which pandas conflates), DataFrames become named column lists, floats are
modelled as exact rationals, and fallible operations (Python exceptions,
here only `ZeroDivisionError`) are modelled with `Option` / `Except`.
IEEE NaN propagation through arithmetic is modelled by `none`-absorbing
operations on `Option ℚ`.
-/

set_option allowUnsafeReducibility true

attribute [local semireducible] Rat.add Rat.mul Rat.sub Rat.div Rat.inv Rat.neg
attribute [local semireducible] Rat.ofScientific

namespace Himcm

/-- Decidable equality for `Except`, used to evaluate the embedded
fallible functions on concrete inputs. -/
instance exceptDecEq {ε α : Type} [DecidableEq ε] [DecidableEq α] :
    DecidableEq (Except ε α) := fun a b =>
  match a, b with
  | Except.error e, Except.error e' =>
    if h : e = e' then isTrue (by rw [h]) else isFalse (by simp [h])
  | Except.error _, Except.ok _ => isFalse (by simp)
  | Except.ok _, Except.error _ => isFalse (by simp)
  | Except.ok v, Except.ok v' =>
    if h : v = v' then isTrue (by rw [h]) else isFalse (by simp [h])

/-- A cell value: numeric (float/int, modelled as an exact rational) or a
categorical string. -/
inductive Val where
  | num : ℚ → Val
  | vstr : String → Val
deriving DecidableEq, Repr

instance : Inhabited Val := ⟨Val.num 0⟩

/-- A DataFrame: a row count together with named columns; each column is a
list of optional cells (`none` = missing / NaN), positionally indexed by
`0 .. nrows-1` (modelling the default RangeIndex). -/
structure DataFrame where
  nrows : Nat
  cols : List (String × List (Option Val))
deriving DecidableEq, Repr

instance : Inhabited DataFrame := ⟨⟨0, []⟩⟩

def colNames (df : DataFrame) : List String := df.cols.map Prod.fst

def getCol (df : DataFrame) (name : String) : Option (List (Option Val)) :=
  (df.cols.find? (fun p => p.1 == name)).map Prod.snd

def getColD (df : DataFrame) (name : String) : List (Option Val) :=
  (getCol df name).getD (List.replicate df.nrows none)

/-- Column assignment `df[name] = vals`: overwrite in place if the column
exists, else append it (pandas semantics). -/
def setCol (df : DataFrame) (name : String) (vals : List (Option Val)) : DataFrame :=
  if (df.cols.any (fun p => p.1 == name)) then
    { df with cols := df.cols.map (fun p => if p.1 == name then (name, vals) else p) }
  else
    { df with cols := df.cols ++ [(name, vals)] }

/-- Numeric view of a column, as produced by `series.astype(float)`.
String cells are modelled as missing here; the claims only exercise this
on numeric data. -/
def numCol (c : List (Option Val)) : List (Option ℚ) :=
  c.map (fun cell => match cell with
    | some (Val.num q) => some q
    | _ => none)

/-- Lowercasing, modelling Python `str.lower()` (ASCII-faithful). -/
def lowerStr (s : String) : String := ⟨s.data.map Char.toLower⟩

/-- Does the second character list start with the first one. -/
def listStarts : List Char → List Char → Bool
  | [], _ => true
  | _ :: _, [] => false
  | p :: ps, c :: cs => p == c && listStarts ps cs

/-- Substring containment on character lists, Python `pat in s`. -/
def listSub (pat : List Char) : List Char → Bool
  | [] => pat.isEmpty
  | c :: cs => listStarts pat (c :: cs) || listSub pat cs

/-- Python substring test `pat in s`. -/
def subStr (pat s : String) : Bool := listSub pat.data s.data

/-- Round-half-even on integers-of-halves: rounds a rational to the nearest
integer, ties to even (numpy rounding). -/
def roundHalfEvenZ (q : ℚ) : ℤ :=
  let f := ⌊q⌋
  let r := q - f
  if r < 1/2 then f
  else if r > 1/2 then f + 1
  else if Even f then f else f + 1

/-- Model of `np.round(q, d)`: round-half-even at `d` decimal places. -/
def roundQ (d : Nat) (q : ℚ) : ℚ := (roundHalfEvenZ (q * 10 ^ d) : ℚ) / 10 ^ d

/-- NaN-propagating addition on optional rationals (`x + nan = nan`). -/
def oadd (a b : Option ℚ) : Option ℚ :=
  match a, b with
  | some x, some y => some (x + y)
  | _, _ => none

/-- NaN-propagating multiplication (`0 * nan = nan` in IEEE as well, so
`none` absorbs regardless of the other factor). -/
def omul (a b : Option ℚ) : Option ℚ :=
  match a, b with
  | some x, some y => some (x * y)
  | _, _ => none

/-- Embedding of `_minmax_normalize` (core.py lines 14-28): min-max scale a
series to 0-100; an all-missing or constant column becomes all-50 (the
empty-minimum case covers `pd.isna(mn)`); with `higher_is_better = false`
the scale is flipped; missing entries propagate as missing (NaN), exactly
as `(s - mn) / (mx - mn) * 100` does in pandas.  `min` and `max` are the
head-seeded folds over the non-missing values, as pandas computes them
with `skipna`. -/
def minmaxNormalize (s : List (Option ℚ)) (hib : Bool) : List (Option ℚ) :=
  if s.all (fun x => x.isNone) then List.replicate s.length (some 50)
  else
    match s.filterMap id with
    | [] => List.replicate s.length (some 50)
    | v :: vs =>
      let mn := vs.foldl min v
      let mx := vs.foldl max v
      if mx = mn then List.replicate s.length (some 50)
      else s.map (Option.map (fun x =>
        let n := (x - mn) / (mx - mn) * 100
        if hib then n else 100 - n))

/-! Environmental composite (core.py `compute_env_condition_metric`,
lines 31-81). -/

/-- Column-name candidates for the water indicator: names whose lowercased
form starts with "water" (core.py line 54). -/
def waterColsOf (df : DataFrame) : List String :=
  (colNames df).filter (fun c => listStarts "water".data (lowerStr c).data)

/-- Column-name candidates for the air indicator (line 60). -/
def airColsOf (df : DataFrame) : List String :=
  (colNames df).filter (fun c =>
    subStr "air" (lowerStr c) || subStr "pm2" (lowerStr c) || subStr "pm10" (lowerStr c))

/-- Column-name candidates for the carbon indicator (line 66). -/
def carbonColsOf (df : DataFrame) : List String :=
  (colNames df).filter (fun c =>
    subStr "carbon" (lowerStr c) || subStr "emissions" (lowerStr c))

/-- Value of a normalized column at row `i`. -/
def normAt (df : DataFrame) (name : String) (hib : Bool) (i : Nat) : Option ℚ :=
  (minmaxNormalize (numCol (getColD df name)) hib).getD i none

/-- Detected environment components for row `i` (core.py lines 46-69):
an ordered association list over the tags energy, water, air, carbon.
Energy is keyed on the exact column name `Renewable_Energy_Pct`
(line 49); the other three use the name heuristics above. -/
def envComponents (df : DataFrame) (i : Nat) : List (String × Option ℚ) :=
  (if "Renewable_Energy_Pct" ∈ colNames df then
    [("energy", normAt df "Renewable_Energy_Pct" true i)] else [])
  ++ (match waterColsOf df with
      | [] => []
      | wc :: _ => [("water", normAt df wc true i)])
  ++ (match airColsOf df with
      | [] => []
      | ac :: _ => [("air", normAt df ac false i)])
  ++ (match carbonColsOf df with
      | [] => []
      | cc :: _ => [("carbon", normAt df cc false i)])

/-- Default environment sub-weights (core.py line 42). -/
def defaultEnvWeights : List (String × ℚ) :=
  [("energy", 2/5), ("water", 1/5), ("air", 1/5), ("carbon", 1/5)]

/-- Dictionary lookup with numeric default 0 (`weights[k]`, keys unique). -/
def weightD (m : List (String × ℚ)) (k : String) : ℚ :=
  ((m.find? (fun p => p.1 == k)).map Prod.snd).getD 0

/-- Lookup of a component value (`components[k]` for `k` present). -/
def compD (comps : List (String × Option ℚ)) (k : String) : Option ℚ :=
  ((comps.find? (fun p => p.1 == k)).map Prod.snd).getD none

/-- Combination step of `compute_env_condition_metric` (lines 71-81):
keep the weight keys that name a detected component, renormalize their
sub-weights, and take the weighted sum, rounded to 2 decimals.  Returns
`Except.error ()` when the retained sub-weights sum to zero, modelling
the Python `ZeroDivisionError`; the inner `Option` carries NaN. -/
def envCombine (weights : List (String × ℚ)) (comps : List (String × Option ℚ)) :
    Except Unit (Option ℚ) :=
  let present := (weights.map Prod.fst).filter (fun k => (comps.map Prod.fst).contains k)
  if present.isEmpty then Except.ok (some 50)
  else
    let totalW := (present.map (fun k => weightD weights k)).sum
    if totalW = 0 then Except.error ()
    else Except.ok
      ((present.foldl (fun acc k =>
          oadd acc (omul (compD comps k) (some (weightD weights k / totalW))))
        (some 0)).map (roundQ 2))

/-- Embedding of `compute_env_condition_metric` for row `i` (lines 31-81). -/
def computeEnvConditionMetric (df : DataFrame) (i : Nat)
    (envComponentWeights : Option (List (String × ℚ))) : Except Unit (Option ℚ) :=
  envCombine (envComponentWeights.getD defaultEnvWeights) (envComponents df i)

/-! Rubric mapper (core.py `_map_with_rubric`, lines 107-134). -/

/-- String form of a value, Python `str(value)`; numeric rendering is a
model choice (the claims only exercise string-valued cells). -/
def strOfVal : Val → String
  | Val.vstr s => s
  | Val.num q => toString q

/-- String form of a cell; a missing cell prints as `nan` (`str(np.nan)`). -/
def strOfCell : Option Val → String
  | none => "nan"
  | some v => strOfVal v

/-- An ordered rubric map for one attribute (dict insertion order). -/
abbrev RubricMap := List (String × ℚ)

/-- Embedding of `_map_with_rubric` (lines 107-134): `none` = NO_MATCH.
Empty map or missing value give NO_MATCH; otherwise first exact key match
against the lowercased stringified value, then first substring match,
then the reserved `default` entry, else NO_MATCH. -/
def mapWithRubric (value : Option Val) (rub : RubricMap) : Option ℚ :=
  if rub.isEmpty then none
  else
    match value with
    | none => none
    | some v =>
      let s := lowerStr (strOfVal v)
      match rub.find? (fun p => p.1 ≠ "default" && p.1 == s) with
      | some p => some p.2
      | none =>
        match rub.find? (fun p => p.1 ≠ "default" && listSub p.1.data s.data) with
        | some p => some p.2
        | none =>
          match rub.find? (fun p => p.1 == "default") with
          | some p => some p.2
          | none => none

/-- A loaded rubric: attribute name to per-attribute rubric map, modelling
the dict produced by `_load_rubric` (the file read itself is I/O glue;
a missing or malformed file yields the empty rubric). -/
abbrev Rubric := List (String × RubricMap)

/-- Per-attribute rubric with lowercased keys, as built at core.py lines
209, 222, 245, 257 (`{k.lower(): v for k, v in rubric.get(name, {}).items()}`). -/
def rubFor (rub : Rubric) (name : String) : RubricMap :=
  (((rub.find? (fun p => p.1 == name)).map Prod.snd).getD []).map
    (fun p => (lowerStr p.1, p.2))

/-! Categorical scorers (core.py lines 207-265). -/

/-- Stadium-type score `_stad_map` (lines 210-215). -/
def stadScore (rub : RubricMap) (v : Option Val) : ℚ :=
  match mapWithRubric v rub with
  | some m => m
  | none =>
    let s := lowerStr (strOfCell v)
    if s == "dome" || s == "retractable roof" || s == "retractable" then 100 else 50

/-- LEED certification score `_map_leed` (lines 223-238). -/
def leedScore (rub : RubricMap) (v : Option Val) : ℚ :=
  match mapWithRubric v rub with
  | some m => m
  | none =>
    match v with
    | none => 0
    | some w =>
      let s := lowerStr (strOfVal w)
      if subStr "platinum" s then 100
      else if subStr "gold" s then 80
      else if subStr "silver" s then 60
      else if subStr "certified" s then 50
      else 30

/-- Waste-management / future-developments score (lines 246-250, 258-262):
rubric or neutral 50. -/
def rubricOnlyScore (rub : RubricMap) (v : Option Val) : ℚ :=
  (mapWithRubric v rub).getD 50

/-- Categorical column scores: map the scorer over the column if present,
else a neutral all-50 column (lines 208-218 etc.). -/
def catScores (df : DataFrame) (name : String) (scorer : Option Val → ℚ) : List ℚ :=
  match getCol df name with
  | some c => c.map scorer
  | none => List.replicate df.nrows 50

/-! Weight handling (core.py lines 150-179). -/

/-- Built-in default weights (lines 151-166). -/
def defaultWeights : List (String × ℚ) :=
  [("Times_Hosted", 1/20), ("Last_Hosted_Year", 1/50), ("Stadium_Type", 2/25),
   ("Stadium_leed_cert", 1/20), ("Waste_Management", 3/100), ("Future_Developments", 3/100),
   ("Avg_Feb_Temp_F", 1/20), ("Alltransit_Score", 3/20), ("Renewable_Energy_Pct", 1/10),
   ("Waste_Diversion_Pct", 1/10), ("Green_Legacy_Projects", 1/10),
   ("Carbon_Offset_Programs", 1/20), ("Env_Conditions", 1/4)]

/-- Dict update `m[k] = v`: replace in place if the key exists (keeping its
position), else append. -/
def updateWeight (m : List (String × ℚ)) (k : String) (v : ℚ) : List (String × ℚ) :=
  if m.any (fun p => p.1 == k) then
    m.map (fun p => if p.1 == k then (k, v) else p)
  else m ++ [(k, v)]

/-- Lines 168-174: apply the user's partial overrides to the defaults, then
force `Env_Conditions` to `env_overall_weight`. -/
def overrideWeights (user : Option (List (String × ℚ))) (envw : ℚ) : List (String × ℚ) :=
  updateWeight
    ((user.getD []).foldl (fun m p => updateWeight m p.1 p.2) defaultWeights)
    "Env_Conditions" envw

/-- Sum of the weight values. -/
def sumWeights (m : List (String × ℚ)) : ℚ := (m.map Prod.snd).sum

/-- Lines 176-179: divide every entry by the total.  Returns `none` when
the total is zero, modelling the Python `ZeroDivisionError`. -/
def normalizeWeights (m : List (String × ℚ)) : Option (List (String × ℚ)) :=
  let t := sumWeights m
  if t = 0 then none else some (m.map (fun p => (p.1, p.2 / t)))

/-! The scoring pipeline `calculate_sustainability_scores`
(core.py lines 137-303). -/

/-- Keys and direction flags of the recognized numeric columns
(`col_map`, lines 189-198). -/
def colMap : List (String × Bool) :=
  [("Times_Hosted", true), ("Last_Hosted_Year", true), ("Avg_Feb_Temp_F", false),
   ("Alltransit_Score", true), ("Renewable_Energy_Pct", true), ("Waste_Diversion_Pct", true),
   ("Green_Legacy_Projects", true), ("Carbon_Offset_Programs", true)]

/-- The recognized numeric keys, in the order of the raw-score loop
(lines 281-282; same keys as `colMap`). -/
def numericKeys : List String := colMap.map Prod.fst

/-- Normalized numeric columns (lines 200-205): min-max normalize each
present recognized column, neutral all-50 for an absent one. -/
def normColsFor (df : DataFrame) : List (String × List (Option ℚ)) :=
  colMap.map (fun kb =>
    (kb.1, if kb.1 ∈ colNames df then
        minmaxNormalize (numCol (getColD df kb.1)) kb.2
      else List.replicate df.nrows (some 50)))

/-- Value of a prepared normalized column at row `i`. -/
def ncolAt (ncols : List (String × List (Option ℚ))) (key : String) (i : Nat) : Option ℚ :=
  (((ncols.find? (fun p => p.1 == key)).map Prod.snd).getD []).getD i none

/-- Raw score for row `i` (lines 269-288): weighted sum of the four
categorical scores, the eight normalized numeric fields and the
environment composite; any NaN component poisons the sum. -/
def rawScoreAt (w : List (String × ℚ)) (stad leed waste future : List ℚ)
    (ncols : List (String × List (Option ℚ))) (envcol : List (Option ℚ)) (i : Nat) :
    Option ℚ :=
  let s := some (0 : ℚ)
  let s := oadd s (some (weightD w "Stadium_Type" * stad.getD i 0))
  let s := oadd s (some (weightD w "Stadium_leed_cert" * leed.getD i 0))
  let s := oadd s (some (weightD w "Waste_Management" * waste.getD i 0))
  let s := oadd s (some (weightD w "Future_Developments" * future.getD i 0))
  let s := numericKeys.foldl
    (fun acc key => oadd acc (omul (some (weightD w key)) (ncolAt ncols key i))) s
  oadd s (omul (some (weightD w "Env_Conditions")) (envcol.getD i none))

/-- The `Raw_Score` column (lines 268-290): per-row raw scores rounded to
3 decimals (`np.round(raw_scores, 3)`), computed over the frame that
already carries the `Env_Conditions` column. -/
def rawColFor (w : List (String × ℚ)) (f1 : DataFrame) (rub : Rubric) : List (Option ℚ) :=
  let stad := catScores f1 "Stadium_Type" (stadScore (rubFor rub "Stadium_Type"))
  let leed := catScores f1 "Stadium_leed_cert" (leedScore (rubFor rub "Stadium_leed_cert"))
  let waste := catScores f1 "Waste_Management" (rubricOnlyScore (rubFor rub "Waste_Management"))
  let future := catScores f1 "Future_Developments"
    (rubricOnlyScore (rubFor rub "Future_Developments"))
  let ncols := normColsFor f1
  let envcol := numCol (getColD f1 "Env_Conditions")
  (List.range f1.nrows).map (fun i =>
    (rawScoreAt w stad leed waste future ncols envcol i).map (roundQ 3))

/-- The `Env_Conditions` column (line 182): the per-row metric over the
pre-assignment frame; an error in any row aborts the call. -/
def envColFor (df : DataFrame) (ecw : Option (List (String × ℚ))) :
    Except Unit (List (Option ℚ)) :=
  (List.range df.nrows).mapM (fun i => computeEnvConditionMetric df i ecw)

/-- The frame after the assignment `df['Env_Conditions'] = ...` (line 182). -/
def envFrame (df : DataFrame) (envc : List (Option ℚ)) : DataFrame :=
  setCol df "Env_Conditions" (envc.map (Option.map Val.num))

/-- The frame after the assignment `df['Raw_Score'] = ...` (line 290). -/
def rawFrame (w : List (String × ℚ)) (f1 : DataFrame) (rub : Rubric) : DataFrame :=
  setCol f1 "Raw_Score" ((rawColFor w f1 rub).map (Option.map Val.num))

/-- Mean of the non-missing raw scores (pandas `mean`, skipna). -/
def meanQ (raws : List (Option ℚ)) : ℚ :=
  let v := raws.filterMap id
  v.sum / (v.length : ℚ)

/-- Sample variance of the non-missing raw scores, denominator `n - 1`
(pandas `std` squares to this; `ddof = 1`). -/
def sampleVarQ (raws : List (Option ℚ)) : ℚ :=
  let v := raws.filterMap id
  (v.map (fun x => (x - meanQ raws) ^ 2)).sum / ((v.length : ℚ) - 1)

/-- The `Sustainability_Z` column (lines 292-298): all-zero when the
sample standard deviation is zero or undefined (fewer than two
non-missing raw scores), else `(raw - mean) / std` with NaN propagation. -/
noncomputable def zColOf (raws : List (Option ℚ)) : List (Option ℝ) :=
  let v := raws.filterMap id
  if v.length ≤ 1 then List.replicate raws.length (some 0)
  else if sampleVarQ raws = 0 then List.replicate raws.length (some 0)
  else raws.map (Option.map (fun (r : ℚ) =>
    ((r : ℝ) - ((meanQ raws : ℚ) : ℝ)) / Real.sqrt ((sampleVarQ raws : ℚ) : ℝ)))

/-- A scored frame: the rational-valued columns plus the two real-valued
standardized columns (`none` = the column has not been assigned). -/
structure ScoredFrame where
  frame : DataFrame
  z : Option (List (Option ℝ))
  zs : Option (List (Option ℝ))

instance : Inhabited ScoredFrame := ⟨⟨default, none, none⟩⟩

/-- Wrap a plain DataFrame as an unscored frame. -/
def plainFrame (df : DataFrame) : ScoredFrame := ⟨df, none, none⟩

/-- Embedding of `calculate_sustainability_scores` (lines 137-303) acting
on the local copy: weight override and renormalization, the
`Env_Conditions` column, the `Raw_Score` column, then the standardized
columns.  `none` models an uncaught `ZeroDivisionError`.  The loaded
rubric is a parameter (the JSON file read is I/O glue). -/
noncomputable def calcScores (sf : ScoredFrame) (user : Option (List (String × ℚ)))
    (ecw : Option (List (String × ℚ))) (envw : ℚ) (rub : Rubric) : Option ScoredFrame :=
  match normalizeWeights (overrideWeights user envw) with
  | none => none
  | some w =>
    match envColFor sf.frame ecw with
    | Except.error _ => none
    | Except.ok envc =>
      let f2 := rawFrame w (envFrame sf.frame envc) rub
      let z := zColOf (numCol (getColD f2 "Raw_Score"))
      let zs := z.map (Option.map (fun t => t * 10 + 50))
      some { frame := f2, z := some z, zs := some zs }

/-- Pipeline with all-default arguments (`env_overall_weight = 0.4`, no
user weights, no env sub-weights, empty rubric). -/
noncomputable def scoreDefault (df : DataFrame) : ScoredFrame :=
  (calcScores (plainFrame df) none none (2/5) []).getD default

/-! Heap model for the ownership claim: Python objects live on a heap of
`ScoredFrame`s addressed by position; the callee receives a reference,
copies it (`df = df.copy()`, line 148), and performs every column
assignment on the fresh copy. -/

/-- One heap call of `calculate_sustainability_scores`: returns the final
heap and the reference to the result (`none` when the call raises). -/
noncomputable def heapCall (h : List ScoredFrame) (r : Nat)
    (user : Option (List (String × ℚ))) (ecw : Option (List (String × ℚ)))
    (envw : ℚ) (rub : Rubric) : List ScoredFrame × Option Nat :=
  let src := h.getD r default
  let ref := h.length
  let h1 := h ++ [src]
  match normalizeWeights (overrideWeights user envw) with
  | none => (h1, none)
  | some w =>
    match envColFor (h1.getD ref default).frame ecw with
    | Except.error _ => (h1, none)
    | Except.ok envc =>
      let h2 := h1.set ref
        { h1.getD ref default with frame := envFrame (h1.getD ref default).frame envc }
      let h3 := h2.set ref
        { h2.getD ref default with frame := rawFrame w (h2.getD ref default).frame rub }
      let z := zColOf (numCol (getColD (h3.getD ref default).frame "Raw_Score"))
      let h4 := h3.set ref { h3.getD ref default with z := some z }
      let zs := ((h4.getD ref default).z.getD []).map (Option.map (fun t => t * 10 + 50))
      let h5 := h4.set ref { h4.getD ref default with zs := some zs }
      (h5, some ref)

/-! Accessors for stating the claims. -/

/-- The `Raw_Score` column of a result, as optional rationals. -/
def rawListOf (res : ScoredFrame) : List (Option ℚ) :=
  numCol (getColD res.frame "Raw_Score")

def rawAt (res : ScoredFrame) (i : Nat) : Option ℚ := (rawListOf res).getD i none

def zAt (res : ScoredFrame) (i : Nat) : Option ℝ := (res.z.getD []).getD i none

def zsAt (res : ScoredFrame) (i : Nat) : Option ℝ := (res.zs.getD []).getD i none

/-- Every cell of the column is missing. -/
def allNoneCol (c : List (Option Val)) : Prop := ∀ x ∈ c, x = none

/-- Every cell of the column is a numeric value. -/
def allNumCol (c : List (Option Val)) : Prop := ∀ x ∈ c, ∃ q, x = some (Val.num q)

/-- Rectangular frame: every column has exactly `nrows` cells. -/
def WFFrame (df : DataFrame) : Prop := ∀ p ∈ df.cols, p.2.length = df.nrows

/-- The column names the pipeline reads numerically: the eight recognized
numeric keys plus the environment-detected columns. -/
def envUsedCols (df : DataFrame) : List String :=
  (if "Renewable_Energy_Pct" ∈ colNames df then ["Renewable_Energy_Pct"] else [])
  ++ (waterColsOf df).take 1 ++ (airColsOf df).take 1 ++ (carbonColsOf df).take 1

def usedNum (df : DataFrame) (n : String) : Prop :=
  n ∈ numericKeys ∨ n ∈ envUsedCols df

/-- Is the cell a numeric value. -/
def isNumCell : Option Val → Bool
  | some (Val.num _) => true
  | _ => false

/-- The column is either entirely missing or entirely numeric (no partial
missingness, no string cells read as numbers). -/
def colOK (c : List (Option Val)) : Prop :=
  (∀ x ∈ c, x = none) ∨ (∀ x ∈ c, isNumCell x = true)

/-! Spec-side definitions, for comparison against the code. -/

/-- Modelled from the spec: the population variance of the raw scores
(denominator `n`), which claim C3 asserts the standardizer divides by
the square root of. -/
def popVarOf (l : List ℚ) : ℚ :=
  (l.map (fun x => (x - l.sum / (l.length : ℚ)) ^ 2)).sum / (l.length : ℚ)

/-- Modelled from the spec: the resolution order claimed for the rubric
mapper, with a genuinely case-insensitive exact phase (both sides
lowercased). -/
def rubricResolveSpec (value : Option Val) (rub : RubricMap) : Option ℚ :=
  if rub.isEmpty then none
  else
    match value with
    | none => none
    | some v =>
      let s := lowerStr (strOfVal v)
      match rub.find? (fun p => p.1 ≠ "default" && lowerStr p.1 == s) with
      | some p => some p.2
      | none =>
        match rub.find? (fun p => p.1 ≠ "default" && listSub p.1.data s.data) with
        | some p => some p.2
        | none =>
          match rub.find? (fun p => p.1 == "default") with
          | some p => some p.2
          | none => none

/-! Concrete fixtures. -/

/-- Two rows, one recognized numeric column with distinct values. -/
def cdf2 : DataFrame :=
  ⟨2, [("Alltransit_Score", [some (Val.num 0), some (Val.num 1)])]⟩

/-- Three rows; the recognized numeric column has one missing value. -/
def cdfPartial : DataFrame :=
  ⟨3, [("Alltransit_Score", [none, some (Val.num 0), some (Val.num 1)])]⟩

/-- A renewable-energy-percentage column under a lowercased name. -/
def lcdf : DataFrame :=
  ⟨2, [("renewable_energy_pct", [some (Val.num 0), some (Val.num 100)])]⟩

/-- A single-row dataset. -/
def w1df : DataFrame := ⟨1, [("Alltransit_Score", [some (Val.num 7)])]⟩

/-- The gold rubric from the claim. -/
def goldRubric : RubricMap := [("gold", 80), ("default", 10)]

/-- A user weight map zeroing every built-in weight key. -/
def zeroUserWeights : List (String × ℚ) := defaultWeights.map (fun p => (p.1, 0))

/-- Components restricted to the keys of a sub-weight map, used to state
that components without a supplied sub-weight are excluded (claim C10). -/
def restrictComps (w : List (String × ℚ)) (comps : List (String × Option ℚ)) :
    List (String × Option ℚ) :=
  comps.filter (fun p => (w.map Prod.fst).contains p.1)

/-! Helper lemmas about list folds and indexed access. -/

theorem foldl_min_le_init (vs : List ℚ) (v : ℚ) : vs.foldl min v ≤ v := by
  induction vs generalizing v with
  | nil => simp
  | cons b bs ih =>
    simp only [List.foldl_cons]
    exact le_trans (ih (min v b)) (min_le_left v b)

theorem foldl_min_le_mem (vs : List ℚ) (v x : ℚ) (hx : x ∈ v :: vs) :
    vs.foldl min v ≤ x := by
  induction vs generalizing v with
  | nil => simp at hx; subst hx; simp
  | cons b bs ih =>
    simp only [List.foldl_cons]
    rcases List.mem_cons.1 hx with rfl | h
    · exact le_trans (foldl_min_le_init bs (min x b)) (min_le_left x b)
    · rcases List.mem_cons.1 h with rfl | h'
      · exact le_trans (foldl_min_le_init bs (min v x)) (min_le_right v x)
      · exact ih (min v b) (List.mem_cons_of_mem _ h')

theorem le_foldl_max_init (vs : List ℚ) (v : ℚ) : v ≤ vs.foldl max v := by
  induction vs generalizing v with
  | nil => simp
  | cons b bs ih =>
    simp only [List.foldl_cons]
    exact le_trans (le_max_left v b) (ih (max v b))

theorem mem_le_foldl_max (vs : List ℚ) (v x : ℚ) (hx : x ∈ v :: vs) :
    x ≤ vs.foldl max v := by
  induction vs generalizing v with
  | nil => simp at hx; subst hx; simp
  | cons b bs ih =>
    simp only [List.foldl_cons]
    rcases List.mem_cons.1 hx with rfl | h
    · exact le_trans (le_max_left x b) (le_foldl_max_init bs (max x b))
    · rcases List.mem_cons.1 h with rfl | h'
      · exact le_trans (le_max_right v x) (le_foldl_max_init bs (max v x))
      · exact ih (max v b) (List.mem_cons_of_mem _ h')

theorem foldl_min_mem (vs : List ℚ) (v : ℚ) : vs.foldl min v ∈ v :: vs := by
  induction vs generalizing v with
  | nil => simp
  | cons b bs ih =>
    simp only [List.foldl_cons]
    rcases List.mem_cons.1 (ih (min v b)) with h | h
    · rw [h]
      rcases min_choice v b with h' | h' <;> rw [h']
      · exact List.mem_cons_self _ _
      · exact List.mem_cons_of_mem _ (List.mem_cons_self _ _)
    · exact List.mem_cons_of_mem _ (List.mem_cons_of_mem _ h)

theorem foldl_max_mem (vs : List ℚ) (v : ℚ) : vs.foldl max v ∈ v :: vs := by
  induction vs generalizing v with
  | nil => simp
  | cons b bs ih =>
    simp only [List.foldl_cons]
    rcases List.mem_cons.1 (ih (max v b)) with h | h
    · rw [h]
      rcases max_choice v b with h' | h' <;> rw [h']
      · exact List.mem_cons_self _ _
      · exact List.mem_cons_of_mem _ (List.mem_cons_self _ _)
    · exact List.mem_cons_of_mem _ (List.mem_cons_of_mem _ h)

theorem foldl_min_const (vs : List ℚ) (v : ℚ) (h : ∀ b ∈ v :: vs, b = v) :
    vs.foldl min v = v := by
  rcases List.mem_cons.1 (foldl_min_mem vs v) with h' | h'
  · exact h'
  · exact h _ (List.mem_cons_of_mem _ h')

theorem foldl_max_const (vs : List ℚ) (v : ℚ) (h : ∀ b ∈ v :: vs, b = v) :
    vs.foldl max v = v := by
  rcases List.mem_cons.1 (foldl_max_mem vs v) with h' | h'
  · exact h'
  · exact h _ (List.mem_cons_of_mem _ h')

theorem getD_map_opt {α β : Type} (f : α → β) (s : List (Option α)) (i : Nat) :
    (s.map (Option.map f)).getD i none = (s.getD i none).map f := by
  induction s generalizing i with
  | nil => simp
  | cons a s ih =>
    cases i with
    | zero => simp
    | succ j => simpa using ih j

theorem getD_replicate {α : Type} (n i : Nat) (x d : α) (hi : i < n) :
    (List.replicate n x).getD i d = x := by
  induction n generalizing i with
  | zero => omega
  | succ m ih =>
    cases i with
    | zero => simp
    | succ j =>
      rw [List.replicate_succ]
      simpa using ih j (by omega)

theorem getD_mem_of_lt {α : Type} (s : List α) (i : Nat) (d : α) (hi : i < s.length) :
    s.getD i d ∈ s := by
  induction s generalizing i with
  | nil => simp at hi
  | cons a s ih =>
    cases i with
    | zero => simp
    | succ j =>
      simp only [List.getD_cons_succ]
      exact List.mem_cons_of_mem a (ih j (by simpa using hi))

theorem some_mem_of_getD (s : List (Option ℚ)) (i : Nat) (v : ℚ)
    (h : s.getD i none = some v) : some v ∈ s := by
  induction s generalizing i with
  | nil => simp at h
  | cons a s ih =>
    cases i with
    | zero => simp at h; simp [h]
    | succ j => exact List.mem_cons_of_mem _ (ih j (by simpa using h))

theorem not_all_isNone (s : List (Option ℚ)) (v : ℚ) (hv : some v ∈ s) :
    s.all (fun x => x.isNone) = false := by
  cases hall : s.all (fun x => x.isNone) with
  | false => rfl
  | true =>
    have := List.all_eq_true.1 hall (some v) hv
    simp at this

/-! Branch lemmas for the normalizer. -/

theorem minmax_all_none (s : List (Option ℚ)) (hib : Bool)
    (h : s.all (fun x => x.isNone) = true) :
    minmaxNormalize s hib = List.replicate s.length (some 50) := by
  simp [minmaxNormalize, h]

theorem mem_of_mem_filterMap (s : List (Option ℚ)) (v : ℚ) (h : v ∈ s.filterMap id) :
    some v ∈ s := by
  rcases List.mem_filterMap.1 h with ⟨a, ha, hav⟩
  cases a with
  | none => simp at hav
  | some w =>
    simp only [id] at hav
    cases hav
    exact ha

theorem minmax_map_branch (s : List (Option ℚ)) (hib : Bool) (v : ℚ) (vs : List ℚ)
    (hv : s.filterMap id = v :: vs) (hne : vs.foldl max v ≠ vs.foldl min v) :
    minmaxNormalize s hib = s.map (Option.map (fun x =>
      if hib then (x - vs.foldl min v) / (vs.foldl max v - vs.foldl min v) * 100
      else 100 - (x - vs.foldl min v) / (vs.foldl max v - vs.foldl min v) * 100)) := by
  have hvmem : some v ∈ s :=
    mem_of_mem_filterMap s v (by rw [hv]; exact List.mem_cons_self _ _)
  have hall := not_all_isNone s v hvmem
  simp only [minmaxNormalize, hall, Bool.false_eq_true, if_false, hv, hne, ite_false]

/-- C7: for any column that is constant over its non-missing values, or
entirely missing, `_minmax_normalize` returns 50 at every position and in
particular never divides by zero. -/
theorem C7_minmax_constant_all50 (s : List (Option ℚ)) (hib : Bool)
    (h : (∀ x ∈ s, x = none) ∨ (∀ a ∈ s.filterMap id, ∀ b ∈ s.filterMap id, a = b)) :
    minmaxNormalize s hib = List.replicate s.length (some 50) := by
  by_cases hall : s.all (fun x => x.isNone) = true
  · exact minmax_all_none s hib hall
  · have hallf : s.all (fun x => x.isNone) = false := by
      cases hb : s.all (fun x => x.isNone) with
      | false => rfl
      | true => exact absurd hb hall
    cases hv : s.filterMap id with
    | nil => simp [minmaxNormalize, hallf, hv]
    | cons v vs =>
      have hconst : ∀ b ∈ v :: vs, b = v := by
        intro b hb
        rcases h with h | h
        · have : some v ∈ s :=
            mem_of_mem_filterMap s v (by rw [hv]; exact List.mem_cons_self _ _)
          exact absurd (h _ this) (by simp)
        · exact h b (hv ▸ hb) v (hv ▸ List.mem_cons_self _ _)
      have hmn := foldl_min_const vs v hconst
      have hmx := foldl_max_const vs v hconst
      simp [minmaxNormalize, hallf, hv, hmn, hmx]

/-- Witness for C7 at concrete inputs: an entirely missing column and a
constant-with-gaps column both normalize to all-50. -/
theorem C7_minmax_constant_all50_witness :
    minmaxNormalize [none, none] true = [some 50, some 50] ∧
    minmaxNormalize [some 3, none, some 3] false = [some 50, some 50, some 50] := by
  constructor
  · exact C7_minmax_constant_all50 [none, none] true (Or.inl (by decide))
  · exact C7_minmax_constant_all50 [some 3, none, some 3] false (Or.inr (by decide))

/-- C4: for every column with at least two distinct non-missing values,
`_minmax_normalize` computes `norm = (value - min) / (max - min) * 100`
(replaced by `100 - norm` when `higher_is_better` is false); every defined
output lies in [0,100], positions holding the minimum map to 0 (100 when
flipped) and positions holding the maximum map to 100 (0 when flipped). -/
theorem C4_minmax_range (s : List (Option ℚ)) (hib : Bool) (a b : ℚ)
    (ha : a ∈ s.filterMap id) (hb : b ∈ s.filterMap id) (hab : a ≠ b) :
    ∃ mn mx, mn ∈ s.filterMap id ∧ mx ∈ s.filterMap id ∧
      (∀ u ∈ s.filterMap id, mn ≤ u ∧ u ≤ mx) ∧ mn < mx ∧
      (∀ i v, s.getD i none = some v → (minmaxNormalize s hib).getD i none =
        some (if hib then (v - mn) / (mx - mn) * 100
          else 100 - (v - mn) / (mx - mn) * 100)) ∧
      (∀ i w, (minmaxNormalize s hib).getD i none = some w → 0 ≤ w ∧ w ≤ 100) ∧
      (∀ i, s.getD i none = some mn → (minmaxNormalize s hib).getD i none =
        some (if hib then 0 else 100)) ∧
      (∀ i, s.getD i none = some mx → (minmaxNormalize s hib).getD i none =
        some (if hib then 100 else 0)) := by
  cases hv : s.filterMap id with
  | nil => rw [hv] at ha; simp at ha
  | cons v vs =>
    rw [hv] at ha hb
    have hmnle : ∀ u ∈ v :: vs, vs.foldl min v ≤ u := fun u hu => foldl_min_le_mem vs v u hu
    have hmxge : ∀ u ∈ v :: vs, u ≤ vs.foldl max v := fun u hu => mem_le_foldl_max vs v u hu
    have hlt : vs.foldl min v < vs.foldl max v := by
      rcases lt_or_eq_of_le (le_trans (hmnle v (List.mem_cons_self v vs))
        (hmxge v (List.mem_cons_self v vs))) with h | h
      · exact h
      · exfalso
        have hha : a = vs.foldl min v :=
          le_antisymm (by rw [h]; exact hmxge a ha) (hmnle a ha)
        have hhb : b = vs.foldl min v :=
          le_antisymm (by rw [h]; exact hmxge b hb) (hmnle b hb)
        exact hab (hha.trans hhb.symm)
    have hne : vs.foldl max v ≠ vs.foldl min v := ne_of_gt hlt
    have hmap := minmax_map_branch s hib v vs hv hne
    have hd : (0:ℚ) < vs.foldl max v - vs.foldl min v := sub_pos.2 hlt
    refine ⟨vs.foldl min v, vs.foldl max v, ?_, ?_, ?_, hlt, ?_, ?_, ?_, ?_⟩
    · exact hv ▸ foldl_min_mem vs v
    · exact hv ▸ foldl_max_mem vs v
    · intro u hu
      exact ⟨hmnle u hu, hmxge u hu⟩
    · intro i w hw
      rw [hmap, getD_map_opt _ s i, hw]
      rfl
    · intro i w hw
      rw [hmap, getD_map_opt _ s i] at hw
      cases hsv : s.getD i none with
      | none => rw [hsv] at hw; simp at hw
      | some u =>
        rw [hsv] at hw
        have humem : u ∈ s.filterMap id :=
          List.mem_filterMap.2 ⟨some u, some_mem_of_getD s i u hsv, rfl⟩
        rw [hv] at humem
        have hub := hmnle u humem
        have huc := hmxge u humem
        have hn0 : (0:ℚ) ≤ (u - vs.foldl min v) / (vs.foldl max v - vs.foldl min v) * 100 := by
          apply mul_nonneg _ (by norm_num)
          exact div_nonneg (sub_nonneg.2 hub) hd.le
        have hn1 : (u - vs.foldl min v) / (vs.foldl max v - vs.foldl min v) * 100 ≤ 100 := by
          have h1 : (u - vs.foldl min v) / (vs.foldl max v - vs.foldl min v) ≤ 1 :=
            (div_le_one hd).2 (by linarith)
          nlinarith
        cases hib with
        | true =>
          simp only [Option.map_some', if_true] at hw
          cases hw
          exact ⟨hn0, hn1⟩
        | false =>
          simp only [Option.map_some', Bool.false_eq_true, if_false] at hw
          cases hw
          constructor <;> linarith
    · intro i hi
      rw [hmap, getD_map_opt _ s i, hi]
      simp only [Option.map_some', sub_self, zero_div, zero_mul, sub_zero]
    · intro i hi
      rw [hmap, getD_map_opt _ s i, hi]
      simp only [Option.map_some']
      rw [div_self hd.ne', one_mul]
      norm_num

/-- Witness for C4: the theorem applied to the column `[0, missing, 4]`
with `higher_is_better = true`. -/
theorem C4_minmax_range_witness :
    ∃ mn mx, mn ∈ ([some 0, none, some 4] : List (Option ℚ)).filterMap id ∧
      mx ∈ ([some 0, none, some 4] : List (Option ℚ)).filterMap id ∧
      (∀ u ∈ ([some 0, none, some 4] : List (Option ℚ)).filterMap id, mn ≤ u ∧ u ≤ mx) ∧
      mn < mx ∧
      (∀ i v, ([some 0, none, some 4] : List (Option ℚ)).getD i none = some v →
        (minmaxNormalize [some 0, none, some 4] true).getD i none =
          some (if (true : Bool) then (v - mn) / (mx - mn) * 100
            else 100 - (v - mn) / (mx - mn) * 100)) ∧
      (∀ i w, (minmaxNormalize [some 0, none, some 4] true).getD i none = some w →
        0 ≤ w ∧ w ≤ 100) ∧
      (∀ i, ([some 0, none, some 4] : List (Option ℚ)).getD i none = some mn →
        (minmaxNormalize [some 0, none, some 4] true).getD i none =
          some (if (true : Bool) then 0 else 100)) ∧
      (∀ i, ([some 0, none, some 4] : List (Option ℚ)).getD i none = some mx →
        (minmaxNormalize [some 0, none, some 4] true).getD i none =
          some (if (true : Bool) then 100 else 0)) :=
  C4_minmax_range [some 0, none, some 4] true 0 4 (by decide) (by decide) (by decide)

/-! Rubric mapper: resolution order (claim C6). -/

theorem find?_congr_mem {α : Type} (l : List α) (p q : α → Bool)
    (h : ∀ x ∈ l, p x = q x) : l.find? p = l.find? q := by
  induction l with
  | nil => rfl
  | cons a l ih =>
    have ha := h a (List.mem_cons_self a l)
    cases hp : p a with
    | true => rw [List.find?_cons_of_pos _ hp, List.find?_cons_of_pos _ (ha ▸ hp)]
    | false =>
      rw [List.find?_cons_of_neg _ (by simp [hp]), List.find?_cons_of_neg _ (by simp [← ha, hp])]
      exact ih (fun x hx => h x (List.mem_cons_of_mem a hx))

/-- C6: `_map_with_rubric` resolves, in order: NO_MATCH for an empty map or
missing value; first exact key match against the lowercased value (which is
a case-insensitive match whenever the rubric keys are lowercase, as the
data model requires); first non-default substring key; the `default` entry;
else NO_MATCH.  With rubric gold 80 / default 10, "Gold Certified" maps to
80 and "Unknown Tier" to 10. -/
theorem C6_map_with_rubric_order :
    (∀ (v : Option Val) (rub : RubricMap), (∀ p ∈ rub, lowerStr p.1 = p.1) →
      mapWithRubric v rub = rubricResolveSpec v rub) ∧
    mapWithRubric (some (Val.vstr "Gold Certified")) goldRubric = some 80 ∧
    mapWithRubric (some (Val.vstr "Unknown Tier")) goldRubric = some 10 := by
  refine ⟨?_, by decide, by decide⟩
  intro v rub hlow
  cases v with
  | none => rfl
  | some w =>
    have hfind : rub.find? (fun p => p.1 ≠ "default" && p.1 == lowerStr (strOfVal w)) =
        rub.find? (fun p => p.1 ≠ "default" && lowerStr p.1 == lowerStr (strOfVal w)) := by
      apply find?_congr_mem
      intro x hx
      rw [hlow x hx]
    cases hemp : rub.isEmpty with
    | true => simp [mapWithRubric, rubricResolveSpec, hemp]
    | false =>
      simp only [mapWithRubric, rubricResolveSpec, hemp, Bool.false_eq_true, if_false]
      rw [hfind]

/-- Witness for C6: the general resolution-order clause applied to the gold
rubric (whose keys are lowercase) and the value "Gold Certified". -/
theorem C6_map_with_rubric_order_witness :
    (∀ p ∈ goldRubric, lowerStr p.1 = p.1) ∧
    mapWithRubric (some (Val.vstr "Gold Certified")) goldRubric =
      rubricResolveSpec (some (Val.vstr "Gold Certified")) goldRubric :=
  ⟨by decide, C6_map_with_rubric_order.1 (some (Val.vstr "Gold Certified")) goldRubric
    (by decide)⟩

/-! Environment component detection (claim C5). -/

/-- C5 (amended): in `compute_env_condition_metric`, the energy component
is detected exactly when a column named `Renewable_Energy_Pct` exists, by
an exact case-sensitive name comparison, whereas the water, air and carbon
components use case-insensitive name heuristics. -/
theorem C5_energy_detection_exact (df : DataFrame) (i : Nat) :
    ("energy" ∈ (envComponents df i).map Prod.fst ↔
      "Renewable_Energy_Pct" ∈ colNames df) ∧
    ("water" ∈ (envComponents df i).map Prod.fst ↔ waterColsOf df ≠ []) ∧
    ("air" ∈ (envComponents df i).map Prod.fst ↔ airColsOf df ≠ []) ∧
    ("carbon" ∈ (envComponents df i).map Prod.fst ↔ carbonColsOf df ≠ []) := by
  unfold envComponents
  by_cases he : "Renewable_Energy_Pct" ∈ colNames df <;>
    cases hw : waterColsOf df <;> cases ha : airColsOf df <;> cases hc : carbonColsOf df <;>
      simp [he, hw, ha, hc]

/-- Witness for C5's amended theorem at a concrete frame: exact-name
detection fires on `cdf2` extended with a renewable column. -/
theorem C5_energy_detection_exact_witness :
    ("energy" ∈ (envComponents lcdf 0).map Prod.fst ↔
      "Renewable_Energy_Pct" ∈ colNames lcdf) ∧
    ("water" ∈ (envComponents lcdf 0).map Prod.fst ↔ waterColsOf lcdf ≠ []) ∧
    ("air" ∈ (envComponents lcdf 0).map Prod.fst ↔ airColsOf lcdf ≠ []) ∧
    ("carbon" ∈ (envComponents lcdf 0).map Prod.fst ↔ carbonColsOf lcdf ≠ []) :=
  C5_energy_detection_exact lcdf 0

/-- C5 counterexample: `lcdf` has a column whose name case-insensitively
equals `Renewable_Energy_Pct`, yet no energy component is detected and the
composite falls back to the neutral 50 — refuting case-insensitive
substring detection for the energy component. -/
theorem C5_energy_detection_cex :
    lowerStr "renewable_energy_pct" = lowerStr "Renewable_Energy_Pct" ∧
    "renewable_energy_pct" ∈ colNames lcdf ∧
    envComponents lcdf 0 = [] ∧
    computeEnvConditionMetric lcdf 0 none = Except.ok (some 50) :=
  ⟨by decide, by decide, by decide, by decide⟩

/-! Sub-weight exclusion in the environment composite (claim C10). -/

theorem find?_key_filter (wkeys : List String) (comps : List (String × Option ℚ))
    (k : String) (hk : wkeys.contains k = true) :
    (comps.filter (fun p => wkeys.contains p.1)).find? (fun p => p.1 == k) =
      comps.find? (fun p => p.1 == k) := by
  induction comps with
  | nil => rfl
  | cons p comps ih =>
    rw [List.filter_cons]
    cases hpk : (p.1 == k) with
    | true =>
      have hp1 : p.1 = k := eq_of_beq hpk
      have hkeep : wkeys.contains p.1 = true := by rw [hp1]; exact hk
      rw [if_pos hkeep, List.find?_cons_of_pos (p := fun (q : String × Option ℚ) => q.1 == k) _ hpk,
        List.find?_cons_of_pos (p := fun (q : String × Option ℚ) => q.1 == k) _ hpk]
    | false =>
      by_cases hkeep : wkeys.contains p.1 = true
      · rw [if_pos hkeep, List.find?_cons_of_neg (p := fun (q : String × Option ℚ) => q.1 == k) _ (by simp [hpk]),
          List.find?_cons_of_neg (p := fun (q : String × Option ℚ) => q.1 == k) _ (by simp [hpk])]
        exact ih
      · rw [if_neg hkeep, List.find?_cons_of_neg (p := fun (q : String × Option ℚ) => q.1 == k) _ (by simp [hpk])]
        exact ih

theorem foldl_oadd_congr {β : Type} (l : List β) (f g : β → Option ℚ)
    (h : ∀ k ∈ l, f k = g k) (acc : Option ℚ) :
    l.foldl (fun a k => oadd a (f k)) acc = l.foldl (fun a k => oadd a (g k)) acc := by
  induction l generalizing acc with
  | nil => rfl
  | cons b l ih =>
    simp only [List.foldl_cons]
    rw [h b (List.mem_cons_self b l), ih (fun k hk => h k (List.mem_cons_of_mem b hk))]

theorem mem_restrict_keys (w : List (String × ℚ)) (comps : List (String × Option ℚ))
    (k : String) (hk : (w.map Prod.fst).contains k = true) :
    ((restrictComps w comps).map Prod.fst).contains k =
      ((comps.map Prod.fst)).contains k := by
  unfold restrictComps
  induction comps with
  | nil => rfl
  | cons p comps ih =>
    rw [List.filter_cons]
    by_cases hkeep : (w.map Prod.fst).contains p.1 = true
    · rw [if_pos hkeep]
      simp only [List.map_cons, List.contains_cons]
      rw [ih]
    · rw [if_neg hkeep]
      simp only [List.map_cons, List.contains_cons]
      rw [ih]
      cases hkp : (k == p.1) with
      | false => simp
      | true =>
        have heq : k = p.1 := eq_of_beq hkp
        rw [← heq] at hkeep
        exact absurd hk hkeep

theorem envCombine_restrict (w : List (String × ℚ)) (comps : List (String × Option ℚ)) :
    envCombine w (restrictComps w comps) = envCombine w comps := by
  have hpres : (w.map Prod.fst).filter
      (fun k => ((restrictComps w comps).map Prod.fst).contains k) =
      (w.map Prod.fst).filter (fun k => (comps.map Prod.fst).contains k) :=
    List.filter_congr (fun k hk =>
      mem_restrict_keys w comps k (List.elem_iff.mpr hk))
  have hcomp : ∀ k ∈ (w.map Prod.fst).filter (fun k => (comps.map Prod.fst).contains k),
      compD (restrictComps w comps) k = compD comps k := by
    intro k hk
    have hkw : (w.map Prod.fst).contains k = true :=
      List.elem_iff.mpr (List.mem_filter.1 hk).1
    unfold compD restrictComps
    rw [find?_key_filter (w.map Prod.fst) comps k hkw]
  unfold envCombine
  rw [hpres]
  generalize hP : (w.map Prod.fst).filter (fun k => (comps.map Prod.fst).contains k) = P
    at hcomp ⊢
  by_cases hPE : P.isEmpty = true
  · rw [if_pos hPE, if_pos hPE]
  · rw [if_neg hPE, if_neg hPE]
    by_cases hT : (P.map (fun k => weightD w k)).sum = 0
    · rw [if_pos hT, if_pos hT]
    · rw [if_neg hT, if_neg hT]
      refine congrArg Except.ok (congrArg (Option.map (roundQ 2)) ?_)
      exact foldl_oadd_congr P
        (fun k => omul (compD (restrictComps w comps) k)
          (some (weightD w k / (P.map (fun k => weightD w k)).sum)))
        (fun k => omul (compD comps k)
          (some (weightD w k / (P.map (fun k => weightD w k)).sum)))
        (fun k hk => by
          show omul (compD (restrictComps w comps) k)
              (some (weightD w k / (P.map (fun k => weightD w k)).sum)) =
            omul (compD comps k)
              (some (weightD w k / (P.map (fun k => weightD w k)).sum))
          rw [hcomp k hk]) (some 0)

/-- C10: with a caller-supplied sub-weight map, only detected components
whose keys appear in that map contribute — the composite over the full
component list equals the composite over the components restricted to the
supplied keys — and when no supplied key names a detected component the
metric is the neutral 50. -/
theorem C10_env_subweights_exclude (df : DataFrame) (i : Nat)
    (w : List (String × ℚ)) :
    computeEnvConditionMetric df i (some w) =
      envCombine w (restrictComps w (envComponents df i)) ∧
    ((∀ k ∈ w.map Prod.fst, k ∉ (envComponents df i).map Prod.fst) →
      computeEnvConditionMetric df i (some w) = Except.ok (some 50)) := by
  constructor
  · exact (envCombine_restrict w (envComponents df i)).symm
  · intro hnone
    show envCombine w (envComponents df i) = Except.ok (some 50)
    unfold envCombine
    have hfil : (w.map Prod.fst).filter
        (fun k => ((envComponents df i).map Prod.fst).contains k) = [] := by
      rw [List.filter_eq_nil_iff]
      intro k hk
      simp only [Bool.not_eq_true]
      cases hc : ((envComponents df i).map Prod.fst).contains k with
      | false => rfl
      | true => exact absurd (List.elem_iff.mp hc) (hnone k hk)
    rw [hfil]
    rfl

/-- Witness for C10: a sub-weight map naming only the water component, over
a frame whose only detected components are energy and water; and the
neutral fallback on a frame with no matching key. -/
theorem C10_env_subweights_exclude_witness :
    (computeEnvConditionMetric lcdf 0 (some [("carbon", 1)]) = Except.ok (some 50)) ∧
    computeEnvConditionMetric cdf2 0 (some [("energy", 1)]) =
      envCombine [("energy", 1)] (restrictComps [("energy", 1)] (envComponents cdf2 0)) := by
  constructor
  · exact (C10_env_subweights_exclude lcdf 0 [("carbon", 1)]).2 (by decide)
  · exact (C10_env_subweights_exclude cdf2 0 [("energy", 1)]).1

/-! Weight override and renormalization (claim C1). -/

theorem assoc_map_update_find {β : Type} (m : List (String × β)) (k : String) (v : β) :
    (m.map (fun p => if p.1 == k then (k, v) else p)).find? (fun p => p.1 == k) =
      if m.any (fun p => p.1 == k) then some (k, v) else none := by
  induction m with
  | nil => rfl
  | cons a m ih =>
    simp only [List.map_cons, List.any_cons]
    by_cases ha : (a.1 == k) = true
    · rw [if_pos ha, List.find?_cons_of_pos (p := fun (q : String × β) => q.1 == k) _
        (by simp), if_pos (by simp [ha])]
    · have ha' : (a.1 == k) = false := by simpa using ha
      rw [if_neg ha,
        List.find?_cons_of_neg (p := fun (q : String × β) => q.1 == k) _ (by simp [ha']),
        ih]
      have hor : (a.1 == k || m.any fun p => p.1 == k) = (m.any fun p => p.1 == k) := by
        rw [ha', Bool.false_or]
      simp only [hor]

theorem assoc_update_find {β : Type} (m : List (String × β)) (k : String) (v : β) :
    ((if m.any (fun p => p.1 == k) then m.map (fun p => if p.1 == k then (k, v) else p)
      else m ++ [(k, v)]).find? (fun p => p.1 == k)) = some (k, v) := by
  by_cases h : m.any (fun p => p.1 == k) = true
  · rw [if_pos h, assoc_map_update_find, if_pos h]
  · rw [if_neg h, List.find?_append]
    have h1 : m.find? (fun p => p.1 == k) = none := by
      rw [List.find?_eq_none]
      intro x hx hb
      exact h (List.any_eq_true.mpr ⟨x, hx, hb⟩)
    rw [h1, Option.none_or]
    exact List.find?_cons_of_pos (p := fun (q : String × β) => q.1 == k) _ (by simp)

theorem updateWeight_find_self (m : List (String × ℚ)) (k : String) (v : ℚ) :
    (updateWeight m k v).find? (fun p => p.1 == k) = some (k, v) :=
  assoc_update_find m k v

theorem sum_map_div (l : List ℚ) (t : ℚ) : (l.map (fun x => x / t)).sum = l.sum / t := by
  induction l with
  | nil => simp
  | cons a l ih => simp [ih, add_div]

theorem normalizeWeights_spec (m : List (String × ℚ)) (hne : sumWeights m ≠ 0) :
    normalizeWeights m = some (m.map (fun p => (p.1, p.2 / sumWeights m))) ∧
    sumWeights (m.map (fun p => (p.1, p.2 / sumWeights m))) = 1 := by
  constructor
  · unfold normalizeWeights
    rw [if_neg hne]
  · show (List.map Prod.snd (m.map (fun p => (p.1, p.2 / sumWeights m)))).sum = 1
    rw [List.map_map]
    have h1 : (Prod.snd ∘ fun p : String × ℚ => (p.1, p.2 / sumWeights m)) =
        (fun x => x / sumWeights m) ∘ Prod.snd := rfl
    rw [h1, ← List.map_map, sum_map_div]
    exact div_self hne

theorem find?_map_div (m : List (String × ℚ)) (k : String) (c : ℚ) :
    (m.map (fun p => (p.1, p.2 / c))).find? (fun p => p.1 == k) =
      (m.find? (fun p => p.1 == k)).map (fun p => (p.1, p.2 / c)) := by
  rw [List.find?_map]
  rfl

/-- C1 (amended): in `calculate_sustainability_scores`, the entry of the
weight map for `Env_Conditions` is forced to `env_overall_weight` — after
any user override and before normalization — and, provided the overridden
map's total weight is nonzero, normalization succeeds and produces the
full vector summing exactly to 1, with the `Env_Conditions` entry scaled
to `env_overall_weight / total`.  (With a zero total the Python code
raises `ZeroDivisionError`; see the counterexample.) -/
theorem C1_weight_override_normalization (user : Option (List (String × ℚ))) (envw : ℚ)
    (hne : sumWeights (overrideWeights user envw) ≠ 0) :
    (overrideWeights user envw).find? (fun p => p.1 == "Env_Conditions") =
      some ("Env_Conditions", envw) ∧
    ∃ m', normalizeWeights (overrideWeights user envw) = some m' ∧
      sumWeights m' = 1 ∧
      m'.find? (fun p => p.1 == "Env_Conditions") =
        some ("Env_Conditions", envw / sumWeights (overrideWeights user envw)) := by
  have h1 : (overrideWeights user envw).find? (fun p => p.1 == "Env_Conditions") =
      some ("Env_Conditions", envw) := updateWeight_find_self _ _ _
  refine ⟨h1, _, (normalizeWeights_spec _ hne).1, (normalizeWeights_spec _ hne).2, ?_⟩
  rw [find?_map_div, h1]
  rfl

/-- Witness for C1's amended theorem: the default configuration
(no user overrides, `env_overall_weight = 0.4`) has nonzero total. -/
theorem C1_weight_override_normalization_witness :
    ((overrideWeights none (2/5)).find? (fun p => p.1 == "Env_Conditions") =
      some ("Env_Conditions", 2/5)) ∧
    ∃ m', normalizeWeights (overrideWeights none (2/5)) = some m' ∧
      sumWeights m' = 1 ∧
      m'.find? (fun p => p.1 == "Env_Conditions") =
        some ("Env_Conditions", (2/5) / sumWeights (overrideWeights none (2/5))) :=
  C1_weight_override_normalization none (2/5) (by decide)

/-- C1 counterexample: a user weight map zeroing every key together with
`env_overall_weight = 0` drives the total to zero, so the normalization
divides by zero (`none` models the uncaught `ZeroDivisionError`) — no
renormalized vector summing to 1 exists, refuting the claim as stated
for every user map and override. -/
theorem C1_weight_override_cex :
    sumWeights (overrideWeights (some zeroUserWeights) 0) = 0 ∧
    normalizeWeights (overrideWeights (some zeroUserWeights) 0) = none :=
  ⟨by decide, by decide⟩

/-! Pipeline plumbing: column write-then-read round trips and inversion of
a successful `calcScores` call. -/

theorem getCol_setCol_self (df : DataFrame) (n : String) (v : List (Option Val)) :
    getCol (setCol df n v) n = some v := by
  unfold getCol setCol
  by_cases h : df.cols.any (fun p => p.1 == n) = true
  · rw [if_pos h]
    show ((df.cols.map (fun p => if p.1 == n then (n, v) else p)).find?
      (fun p => p.1 == n)).map Prod.snd = some v
    rw [assoc_map_update_find, if_pos h]
    rfl
  · rw [if_neg h]
    show ((df.cols ++ [(n, v)]).find? (fun p => p.1 == n)).map Prod.snd = some v
    rw [List.find?_append]
    have h1 : df.cols.find? (fun p => p.1 == n) = none := by
      rw [List.find?_eq_none]
      intro x hx hb
      exact h (List.any_eq_true.mpr ⟨x, hx, hb⟩)
    rw [h1, Option.none_or,
      List.find?_cons_of_pos (p := fun (q : String × List (Option Val)) => q.1 == n) _
        (by simp)]
    rfl

theorem nrows_setCol (df : DataFrame) (n : String) (v : List (Option Val)) :
    (setCol df n v).nrows = df.nrows := by
  unfold setCol
  split <;> rfl

theorem getColD_setCol_self (df : DataFrame) (n : String) (v : List (Option Val)) :
    getColD (setCol df n v) n = v := by
  unfold getColD
  rw [getCol_setCol_self]
  rfl

theorem numCol_map_num (l : List (Option ℚ)) : numCol (l.map (Option.map Val.num)) = l := by
  induction l with
  | nil => rfl
  | cons a l ih => cases a <;> simp [numCol] <;> simpa [numCol] using ih

theorem rawListOf_rawFrame (w : List (String × ℚ)) (f1 : DataFrame) (rub : Rubric) :
    numCol (getColD (rawFrame w f1 rub) "Raw_Score") = rawColFor w f1 rub := by
  unfold rawFrame
  rw [getColD_setCol_self]
  exact numCol_map_num _

theorem calcScores_some_inv (sf : ScoredFrame) (user ecw : Option (List (String × ℚ)))
    (envw : ℚ) (rub : Rubric) (res : ScoredFrame)
    (h : calcScores sf user ecw envw rub = some res) :
    ∃ w envc, normalizeWeights (overrideWeights user envw) = some w ∧
      envColFor sf.frame ecw = Except.ok envc ∧
      res.frame = rawFrame w (envFrame sf.frame envc) rub ∧
      res.z = some (zColOf (rawColFor w (envFrame sf.frame envc) rub)) ∧
      res.zs = some ((zColOf (rawColFor w (envFrame sf.frame envc) rub)).map
        (Option.map (fun t => t * 10 + 50))) := by
  unfold calcScores at h
  cases hw : normalizeWeights (overrideWeights user envw) with
  | none => rw [hw] at h; simp at h
  | some w =>
    rw [hw] at h
    cases he : envColFor sf.frame ecw with
    | error e => rw [he] at h; simp at h
    | ok envc =>
      rw [he] at h
      simp only [Option.some.injEq] at h
      refine ⟨w, envc, rfl, rfl, ?_, ?_, ?_⟩
      · rw [← h]
      · rw [← h]
        show some (zColOf (numCol (getColD (rawFrame w (envFrame sf.frame envc) rub)
          "Raw_Score"))) = _
        rw [rawListOf_rawFrame]
      · rw [← h]
        show some ((zColOf (numCol (getColD (rawFrame w (envFrame sf.frame envc) rub)
          "Raw_Score"))).map (Option.map (fun t => t * 10 + 50))) = _
        rw [rawListOf_rawFrame]

theorem rawListOf_of_inv (res : ScoredFrame) (w : List (String × ℚ)) (f1 : DataFrame)
    (rub : Rubric) (hf : res.frame = rawFrame w f1 rub) :
    rawListOf res = rawColFor w f1 rub := by
  unfold rawListOf
  rw [hf]
  exact rawListOf_rawFrame w f1 rub

theorem zColOf_formula (raws : List (Option ℚ))
    (h2 : 2 ≤ (raws.filterMap id).length) (hv : sampleVarQ raws ≠ 0) :
    zColOf raws = raws.map (Option.map (fun (r : ℚ) =>
      ((r : ℝ) - ((meanQ raws : ℚ) : ℝ)) / Real.sqrt ((sampleVarQ raws : ℚ) : ℝ))) := by
  unfold zColOf
  rw [if_neg (by omega), if_neg hv]

theorem zColOf_degenerate (raws : List (Option ℚ))
    (h : (raws.filterMap id).length ≤ 1 ∨ sampleVarQ raws = 0) :
    zColOf raws = List.replicate raws.length (some 0) := by
  unfold zColOf
  by_cases h1 : (raws.filterMap id).length ≤ 1
  · rw [if_pos h1]
  · rw [if_neg h1, if_pos (h.resolve_left h1)]

/-- C3 (amended): when the `Raw_Score` column has at least two non-missing
values with nonzero variance, `Sustainability_Z` is `(raw - mean) / std`
where `std` is the SAMPLE standard deviation (pandas default, `ddof = 1`,
square root of `sampleVarQ`), not the population one, and
`Sustainability_Z_Scaled` is `Z * 10 + 50`. -/
theorem C3_standardize_sample_std (df : DataFrame) (res : ScoredFrame)
    (h : calcScores (plainFrame df) none none (2/5) [] = some res)
    (h2 : 2 ≤ ((rawListOf res).filterMap id).length)
    (hv : sampleVarQ (rawListOf res) ≠ 0) :
    res.z = some ((rawListOf res).map (Option.map (fun (r : ℚ) =>
      ((r : ℝ) - ((meanQ (rawListOf res) : ℚ) : ℝ)) /
        Real.sqrt ((sampleVarQ (rawListOf res) : ℚ) : ℝ)))) ∧
    res.zs = some (((rawListOf res).map (Option.map (fun (r : ℚ) =>
      ((r : ℝ) - ((meanQ (rawListOf res) : ℚ) : ℝ)) /
        Real.sqrt ((sampleVarQ (rawListOf res) : ℚ) : ℝ)))).map
      (Option.map (fun t => t * 10 + 50))) := by
  obtain ⟨w, envc, hw, he, hf, hz, hzs⟩ := calcScores_some_inv _ _ _ _ _ _ h
  have hraw := rawListOf_of_inv _ _ _ _ hf
  constructor
  · rw [hz, ← hraw, zColOf_formula _ h2 hv]
  · rw [hzs, ← hraw, zColOf_formula _ h2 hv]

/-- Witness for C3's amended theorem on the two-row fixture `cdf2`. -/
theorem C3_standardize_sample_std_witness :
    ∃ res, calcScores (plainFrame cdf2) none none (2/5) [] = some res ∧
      (res.z = some ((rawListOf res).map (Option.map (fun (r : ℚ) =>
        ((r : ℝ) - ((meanQ (rawListOf res) : ℚ) : ℝ)) /
          Real.sqrt ((sampleVarQ (rawListOf res) : ℚ) : ℝ)))) ∧
      res.zs = some (((rawListOf res).map (Option.map (fun (r : ℚ) =>
        ((r : ℝ) - ((meanQ (rawListOf res) : ℚ) : ℝ)) /
          Real.sqrt ((sampleVarQ (rawListOf res) : ℚ) : ℝ)))).map
        (Option.map (fun t => t * 10 + 50)))) := by
  have h : calcScores (plainFrame cdf2) none none (2/5) [] = some (scoreDefault cdf2) := by
    rfl
  exact ⟨scoreDefault cdf2, h,
    C3_standardize_sample_std cdf2 (scoreDefault cdf2) h (by decide) (by decide)⟩

/-- C3 counterexample: on `cdf2` the raw scores are 43.802 and 56.198
(mean 50); the claimed population standard deviation is 6.198
(population variance 38.415204), so the claim predicts `Z = 1` for row 1,
but the code divides by the sample standard deviation and yields
`1 / sqrt 2`. -/
theorem C3_population_std_cex :
    (calcScores (plainFrame cdf2) none none (2/5) []).isSome = true ∧
    rawListOf (scoreDefault cdf2) = [some (43802/1000), some (56198/1000)] ∧
    meanQ (rawListOf (scoreDefault cdf2)) = 50 ∧
    popVarOf ((rawListOf (scoreDefault cdf2)).filterMap id) = 38415204/1000000 ∧
    zAt (scoreDefault cdf2) 1 ≠
      some ((((56198/1000 : ℚ) : ℝ) - ((50 : ℚ) : ℝ)) /
        Real.sqrt (((38415204/1000000 : ℚ) : ℝ))) := by
  have hs : (calcScores (plainFrame cdf2) none none (2/5) []).isSome = true := by rfl
  refine ⟨hs, by decide, by decide, by decide, ?_⟩
  have h : calcScores (plainFrame cdf2) none none (2/5) [] = some (scoreDefault cdf2) := by
    rw [scoreDefault]
    cases hc : calcScores (plainFrame cdf2) none none (2/5) [] with
    | none => rw [hc] at hs; simp at hs
    | some r => rfl
  obtain ⟨w, envc, hw, he, hf, hz, hzs⟩ := calcScores_some_inv _ _ _ _ _ _ h
  have hraw := rawListOf_of_inv _ _ _ _ hf
  have hzf : (scoreDefault cdf2).z =
      some ((rawListOf (scoreDefault cdf2)).map (Option.map (fun (r : ℚ) =>
        ((r : ℝ) - ((meanQ (rawListOf (scoreDefault cdf2)) : ℚ) : ℝ)) /
          Real.sqrt ((sampleVarQ (rawListOf (scoreDefault cdf2)) : ℚ) : ℝ)))) := by
    rw [hz, ← hraw, zColOf_formula _ (by decide) (by decide)]
  have hmean : meanQ (rawListOf (scoreDefault cdf2)) = 50 := by decide
  have hvar : sampleVarQ (rawListOf (scoreDefault cdf2)) = 76830408/1000000 := by decide
  have hlist : rawListOf (scoreDefault cdf2) =
      [some (43802/1000), some (56198/1000)] := by decide
  have hzAt : zAt (scoreDefault cdf2) 1 =
      some ((((56198/1000 : ℚ) : ℝ) - ((50 : ℚ) : ℝ)) /
        Real.sqrt (((76830408/1000000 : ℚ) : ℝ))) := by
    unfold zAt
    rw [hzf, hmean, hvar, hlist]
    rfl
  rw [hzAt]
  intro hcontra
  have heq := Option.some.inj hcontra
  have hd : ((56198/1000 : ℚ) : ℝ) - ((50 : ℚ) : ℝ) = 6198/1000 := by
    push_cast
    norm_num
  have hv1 : (((76830408/1000000 : ℚ)) : ℝ) = 2 * (6198/1000 : ℝ) ^ 2 := by
    push_cast
    norm_num
  have hv2 : (((38415204/1000000 : ℚ)) : ℝ) = (6198/1000 : ℝ) ^ 2 := by
    push_cast
    norm_num
  rw [hd, hv1, hv2] at heq
  have hdpos : (0 : ℝ) < 6198/1000 := by norm_num
  have h1 : Real.sqrt (2 * (6198/1000 : ℝ) ^ 2) = Real.sqrt 2 * (6198/1000) := by
    rw [Real.sqrt_mul (by norm_num : (0:ℝ) ≤ 2), Real.sqrt_sq hdpos.le]
  have h2 : Real.sqrt ((6198/1000 : ℝ) ^ 2) = 6198/1000 := Real.sqrt_sq hdpos.le
  rw [h1, h2] at heq
  have hs2 : (1 : ℝ) < Real.sqrt 2 := by
    rw [show (1 : ℝ) = Real.sqrt 1 from (Real.sqrt_one).symm]
    exact Real.sqrt_lt_sqrt (by norm_num) (by norm_num)
  have hlt : (6198/1000 : ℝ) / (Real.sqrt 2 * (6198/1000)) < (6198/1000 : ℝ) / (6198/1000) := by
    rw [div_self hdpos.ne']
    rw [div_lt_one (by positivity)]
    nlinarith
  exact absurd heq (ne_of_lt hlt)

/-! Degenerate standardization (claim C8). -/

theorem filterMap_id_nil_of_none (s : List (Option ℚ)) (h : ∀ x ∈ s, x = none) :
    s.filterMap id = [] := by
  induction s with
  | nil => rfl
  | cons a s ih =>
    rw [h a (List.mem_cons_self a s)]
    simpa using ih (fun x hx => h x (List.mem_cons_of_mem a hx))

theorem filterMap_id_replicate_of_some (s : List (Option ℚ)) (q : ℚ)
    (h : ∀ x ∈ s, x = some q) : s.filterMap id = List.replicate s.length q := by
  induction s with
  | nil => rfl
  | cons a s ih =>
    rw [h a (List.mem_cons_self a s), List.length_cons, List.replicate_succ]
    simpa using ih (fun x hx => h x (List.mem_cons_of_mem a hx))

theorem sampleVarQ_of_replicate (raws : List (Option ℚ)) (m : Nat) (q : ℚ) (hm : m ≠ 0)
    (h : raws.filterMap id = List.replicate m q) : sampleVarQ raws = 0 := by
  have hmean : meanQ raws = q := by
    simp only [meanQ, h, List.sum_replicate, List.length_replicate, nsmul_eq_mul]
    exact mul_div_cancel_left₀ q (Nat.cast_ne_zero.mpr hm)
  simp only [sampleVarQ, h, hmean, List.map_replicate]
  simp

/-- C8: for a single-row dataset, or one whose raw scores are all equal
(hence zero or undefined sample standard deviation), every row gets
`Sustainability_Z = 0` and `Sustainability_Z_Scaled = 50`, with no
division by zero. -/
theorem C8_degenerate_standardization (df : DataFrame) (res : ScoredFrame)
    (h : calcScores (plainFrame df) none none (2/5) [] = some res)
    (hdeg : df.nrows = 1 ∨ ∀ x ∈ rawListOf res, ∀ y ∈ rawListOf res, x = y) :
    res.z = some (List.replicate df.nrows (some 0)) ∧
    res.zs = some (List.replicate df.nrows (some 50)) := by
  obtain ⟨w, envc, hw, he, hf, hz, hzs⟩ := calcScores_some_inv _ _ _ _ _ _ h
  have hraw := rawListOf_of_inv _ _ _ _ hf
  have hlen : (rawListOf res).length = df.nrows := by
    rw [hraw]
    unfold rawColFor
    rw [List.length_map, List.length_range]
    show (envFrame (plainFrame df).frame envc).nrows = df.nrows
    unfold envFrame
    rw [nrows_setCol]
    rfl
  have hdeg' : ((rawListOf res).filterMap id).length ≤ 1 ∨
      sampleVarQ (rawListOf res) = 0 := by
    rcases hdeg with h1 | h1
    · left
      exact le_trans (List.length_filterMap_le id _) (by rw [hlen, h1])
    · cases hne : rawListOf res with
      | nil => left; simp
      | cons c rest =>
        rw [hne] at h1
        cases c with
        | none =>
          left
          rw [filterMap_id_nil_of_none _ (fun x hx =>
            h1 x hx none (List.mem_cons_self _ _))]
          simp
        | some q =>
          right
          exact sampleVarQ_of_replicate _ (some q :: rest).length q (by simp)
            (filterMap_id_replicate_of_some _ q (fun x hx =>
              h1 x hx (some q) (List.mem_cons_self _ _)))
  have hzc := zColOf_degenerate (rawListOf res) hdeg'
  constructor
  · rw [hz, ← hraw, hzc, hlen]
  · rw [hzs, ← hraw, hzc, hlen, List.map_replicate]
    have h50 : Option.map (fun t : ℝ => t * 10 + 50) (some 0) = some 50 := by
      simp only [Option.map_some']
      norm_num
    rw [h50]

/-- Witness for C8 at a single-row dataset. -/
theorem C8_degenerate_standardization_witness :
    ∃ res, calcScores (plainFrame w1df) none none (2/5) [] = some res ∧
      (res.z = some (List.replicate w1df.nrows (some 0)) ∧
       res.zs = some (List.replicate w1df.nrows (some 50))) := by
  have h : calcScores (plainFrame w1df) none none (2/5) [] = some (scoreDefault w1df) := by
    rfl
  exact ⟨scoreDefault w1df, h,
    C8_degenerate_standardization w1df (scoreDefault w1df) h (Or.inl rfl)⟩

/-! Totality of the scoring pipeline on frames whose numerically-used
columns are either entirely missing or entirely numeric (claim C2). -/

theorem oadd_isSome (a b : Option ℚ) (ha : a.isSome = true) (hb : b.isSome = true) :
    (oadd a b).isSome = true := by
  cases a with
  | none => simp at ha
  | some x =>
    cases b with
    | none => simp at hb
    | some y => rfl

theorem omul_isSome (a b : Option ℚ) (ha : a.isSome = true) (hb : b.isSome = true) :
    (omul a b).isSome = true := by
  cases a with
  | none => simp at ha
  | some x =>
    cases b with
    | none => simp at hb
    | some y => rfl

theorem foldl_oadd_isSome {β : Type} (l : List β) (g : β → Option ℚ)
    (h : ∀ k ∈ l, (g k).isSome = true) :
    ∀ acc, acc.isSome = true → (l.foldl (fun a k => oadd a (g k)) acc).isSome = true := by
  induction l with
  | nil => exact fun acc ha => ha
  | cons b l ih =>
    intro acc ha
    simp only [List.foldl_cons]
    exact ih (fun k hk => h k (List.mem_cons_of_mem b hk)) _
      (oadd_isSome _ _ ha (h b (List.mem_cons_self b l)))

theorem minmax_flat_branch (s : List (Option ℚ)) (hib : Bool) (v : ℚ) (vs : List ℚ)
    (hv : s.filterMap id = v :: vs) (heq : vs.foldl max v = vs.foldl min v) :
    minmaxNormalize s hib = List.replicate s.length (some 50) := by
  have hvmem : some v ∈ s :=
    mem_of_mem_filterMap s v (by rw [hv]; exact List.mem_cons_self _ _)
  have hall := not_all_isNone s v hvmem
  simp only [minmaxNormalize, hall, Bool.false_eq_true, if_false, hv]
  rw [if_pos heq]

theorem minmax_isSome (s : List (Option ℚ)) (hib : Bool)
    (hcond : (∀ x ∈ s, x = none) ∨ (∀ x ∈ s, x.isSome = true)) (i : Nat)
    (hi : i < s.length) : ((minmaxNormalize s hib).getD i none).isSome = true := by
  rcases hcond with hnone | hsome
  · rw [minmax_all_none s hib (by
      rw [List.all_eq_true]
      intro x hx
      simp [hnone x hx]), getD_replicate _ _ _ _ hi]
    rfl
  · cases hv : s.filterMap id with
    | nil =>
      cases hs0 : s with
      | nil => rw [hs0] at hi; simp at hi
      | cons c s' =>
        rw [hs0] at hsome hv
        have hc := hsome c (List.mem_cons_self c s')
        cases c with
        | none => simp at hc
        | some u =>
          have : u ∈ (some u :: s').filterMap id :=
            List.mem_filterMap.2 ⟨some u, List.mem_cons_self _ _, rfl⟩
          rw [hv] at this
          simp at this
    | cons v vs =>
      by_cases hne : vs.foldl max v = vs.foldl min v
      · rw [minmax_flat_branch s hib v vs hv hne, getD_replicate _ _ _ _ hi]
        rfl
      · rw [minmax_map_branch s hib v vs hv hne, getD_map_opt]
        have hmem := getD_mem_of_lt s i none hi
        have := hsome _ hmem
        cases hsv : s.getD i none with
        | none => rw [hsv] at this; simp at this
        | some u => rfl

theorem getCol_setCol_ne (df : DataFrame) (n m : String) (v : List (Option Val))
    (hnm : m ≠ n) : getCol (setCol df n v) m = getCol df m := by
  unfold getCol setCol
  by_cases h : df.cols.any (fun p => p.1 == n) = true
  · rw [if_pos h]
    show ((df.cols.map (fun p => if p.1 == n then (n, v) else p)).find?
      (fun p => p.1 == m)).map Prod.snd = _
    congr 1
    induction df.cols with
    | nil => rfl
    | cons a cols ih =>
      simp only [List.map_cons]
      by_cases ha : (a.1 == n) = true
      · have han : a.1 = n := eq_of_beq ha
        rw [if_pos ha,
          List.find?_cons_of_neg (p := fun (q : String × List (Option Val)) => q.1 == m) _
            (by simp [Ne.symm hnm]),
          List.find?_cons_of_neg (p := fun (q : String × List (Option Val)) => q.1 == m) _
            (by simp [han, Ne.symm hnm])]
        exact ih
      · rw [if_neg ha]
        cases ham : (a.1 == m) with
        | true =>
          rw [List.find?_cons_of_pos (p := fun (q : String × List (Option Val)) => q.1 == m)
            _ ham,
            List.find?_cons_of_pos (p := fun (q : String × List (Option Val)) => q.1 == m)
            _ ham]
        | false =>
          rw [List.find?_cons_of_neg (p := fun (q : String × List (Option Val)) => q.1 == m)
            _ (by simp [ham]),
            List.find?_cons_of_neg (p := fun (q : String × List (Option Val)) => q.1 == m)
            _ (by simp [ham])]
          exact ih
  · rw [if_neg h]
    show ((df.cols ++ [(n, v)]).find? (fun p => p.1 == m)).map Prod.snd = _
    rw [List.find?_append,
      List.find?_cons_of_neg (p := fun (q : String × List (Option Val)) => q.1 == m) _
        (by simp [Ne.symm hnm])]
    show ((df.cols.find? (fun p => p.1 == m)).or (List.find? _ [])).map Prod.snd = _
    rw [show List.find? (fun (q : String × List (Option Val)) => q.1 == m) [] = none from rfl,
      Option.or_none]

theorem getColD_setCol_ne (df : DataFrame) (n m : String) (v : List (Option Val))
    (hnm : m ≠ n) : getColD (setCol df n v) m = getColD df m := by
  unfold getColD
  rw [getCol_setCol_ne df n m v hnm, nrows_setCol]

theorem mem_colNames_setCol_ne (df : DataFrame) (n m : String) (v : List (Option Val))
    (hnm : m ≠ n) : (m ∈ colNames (setCol df n v)) ↔ m ∈ colNames df := by
  unfold colNames setCol
  by_cases h : df.cols.any (fun p => p.1 == n) = true
  · rw [if_pos h]
    show m ∈ (df.cols.map (fun p => if p.1 == n then (n, v) else p)).map Prod.fst ↔ _
    rw [List.map_map]
    constructor
    · intro hm
      rcases List.mem_map.1 hm with ⟨p, hp, hpm⟩
      by_cases hpn : (p.1 == n) = true
      · exfalso
        simp only [Function.comp, hpn, if_pos] at hpm
        exact hnm hpm.symm
      · simp only [Function.comp, hpn] at hpm
        rw [if_neg (by simpa using hpn)] at hpm
        exact List.mem_map.2 ⟨p, hp, hpm⟩
    · intro hm
      rcases List.mem_map.1 hm with ⟨p, hp, hpm⟩
      by_cases hpn : (p.1 == n) = true
      · exact absurd (hpm.symm.trans (eq_of_beq hpn)) hnm
      · refine List.mem_map.2 ⟨p, hp, ?_⟩
        simp only [Function.comp]
        rw [if_neg (by simpa using hpn)]
        exact hpm
  · rw [if_neg h]
    show m ∈ (df.cols ++ [(n, v)]).map Prod.fst ↔ _
    rw [List.map_append, List.mem_append]
    simp only [List.map_cons, List.map_nil, List.mem_singleton]
    constructor
    · rintro (hm | hm)
      · exact hm
      · exact absurd hm hnm
    · exact Or.inl

theorem getColD_spec (df : DataFrame) (cname : String) (h : cname ∈ colNames df) :
    (cname, getColD df cname) ∈ df.cols := by
  rcases List.mem_map.1 h with ⟨p, hp, hpc⟩
  cases hf : df.cols.find? (fun q => q.1 == cname) with
  | none =>
    exfalso
    rw [List.find?_eq_none] at hf
    exact hf p hp (by simp [hpc])
  | some pr =>
    have hpr := List.mem_of_find?_eq_some hf
    have hbeq : (pr.1 == cname) = true :=
      List.find?_some (p := fun (q : String × List (Option Val)) => q.1 == cname) hf
    have hprc : pr.1 = cname := eq_of_beq hbeq
    have : getColD df cname = pr.2 := by
      unfold getColD getCol
      rw [hf]
      rfl
    rw [this, ← hprc]
    exact hpr

theorem mapM_env_ok (l : List Nat) (f : Nat → Except Unit (Option ℚ))
    (h : ∀ a ∈ l, ∃ v, f a = Except.ok (some v)) :
    ∃ out, l.mapM f = Except.ok out ∧ out.length = l.length ∧
      ∀ j, j < out.length → (out.getD j none).isSome = true := by
  induction l with
  | nil => exact ⟨[], rfl, rfl, by simp⟩
  | cons a l ih =>
    obtain ⟨v, hv⟩ := h a (List.mem_cons_self a l)
    obtain ⟨out, hout, hlen, hsome⟩ := ih (fun x hx => h x (List.mem_cons_of_mem a hx))
    refine ⟨some v :: out, ?_, by simp [hlen], ?_⟩
    · rw [List.mapM_cons, hv, hout]
      rfl
    · intro j hj
      cases j with
      | zero => rfl
      | succ j' =>
        simp only [List.getD_cons_succ]
        exact hsome j' (by simpa using hj)

theorem numCol_length (c : List (Option Val)) : (numCol c).length = c.length := by
  simp [numCol]

theorem numCol_cond (c : List (Option Val)) (h : colOK c) :
    (∀ x ∈ numCol c, x = none) ∨ (∀ x ∈ numCol c, x.isSome = true) := by
  rcases h with h | h
  · left
    intro x hx
    rcases List.mem_map.1 hx with ⟨cell, hcell, hx'⟩
    rw [← hx', h cell hcell]
  · right
    intro x hx
    rcases List.mem_map.1 hx with ⟨cell, hcell, hx'⟩
    have := h cell hcell
    cases cell with
    | none => simp [isNumCell] at this
    | some v =>
      cases v with
      | num q => rw [← hx']; rfl
      | vstr t => simp [isNumCell] at this

theorem normAt_isSome (df : DataFrame) (cname : String) (hib : Bool) (i : Nat)
    (hwf : WFFrame df) (hco : colOK (getColD df cname)) (hname : cname ∈ colNames df)
    (hi : i < df.nrows) : (normAt df cname hib i).isSome = true := by
  unfold normAt
  apply minmax_isSome _ _ (numCol_cond _ hco)
  rw [numCol_length, hwf _ (getColD_spec df cname hname)]
  exact hi

theorem envComponents_mem (df : DataFrame) (i : Nat) (p : String × Option ℚ)
    (hp : p ∈ envComponents df i) :
    (p = ("energy", normAt df "Renewable_Energy_Pct" true i) ∧
      "Renewable_Energy_Pct" ∈ colNames df) ∨
    (∃ wc rest, waterColsOf df = wc :: rest ∧ p = ("water", normAt df wc true i)) ∨
    (∃ ac rest, airColsOf df = ac :: rest ∧ p = ("air", normAt df ac false i)) ∨
    (∃ cc rest, carbonColsOf df = cc :: rest ∧ p = ("carbon", normAt df cc false i)) := by
  unfold envComponents at hp
  simp only [List.mem_append] at hp
  rcases hp with ((hp | hp) | hp) | hp
  · by_cases he : "Renewable_Energy_Pct" ∈ colNames df
    · rw [if_pos he] at hp
      simp only [List.mem_singleton] at hp
      exact Or.inl ⟨hp, he⟩
    · rw [if_neg he] at hp
      simp at hp
  · cases hwc : waterColsOf df with
    | nil => rw [hwc] at hp; simp at hp
    | cons wc rest =>
      rw [hwc] at hp
      simp only [List.mem_singleton] at hp
      exact Or.inr (Or.inl ⟨wc, rest, rfl, hp⟩)
  · cases hac : airColsOf df with
    | nil => rw [hac] at hp; simp at hp
    | cons ac rest =>
      rw [hac] at hp
      simp only [List.mem_singleton] at hp
      exact Or.inr (Or.inr (Or.inl ⟨ac, rest, rfl, hp⟩))
  · cases hcc : carbonColsOf df with
    | nil => rw [hcc] at hp; simp at hp
    | cons cc rest =>
      rw [hcc] at hp
      simp only [List.mem_singleton] at hp
      exact Or.inr (Or.inr (Or.inr ⟨cc, rest, rfl, hp⟩))

theorem compD_isSome (comps : List (String × Option ℚ)) (k : String)
    (hk : k ∈ comps.map Prod.fst) (hall : ∀ p ∈ comps, (p.2).isSome = true) :
    (compD comps k).isSome = true := by
  cases hf : comps.find? (fun p => p.1 == k) with
  | none =>
    exfalso
    rw [List.find?_eq_none] at hf
    rcases List.mem_map.1 hk with ⟨p, hp, hpk⟩
    exact hf p hp (by simp [hpk])
  | some pr =>
    unfold compD
    rw [hf]
    exact hall pr (List.mem_of_find?_eq_some hf)

theorem envMetric_default_ok (df : DataFrame) (hwf : WFFrame df)
    (hcols : ∀ p ∈ df.cols, usedNum df p.1 → colOK p.2) (i : Nat) (hi : i < df.nrows) :
    ∃ v, computeEnvConditionMetric df i none = Except.ok (some v) := by
  have hcolOK : ∀ cname, cname ∈ colNames df → usedNum df cname →
      colOK (getColD df cname) := by
    intro cname hname hused
    exact hcols _ (getColD_spec df cname hname) hused
  have hcompsome : ∀ p ∈ envComponents df i, (p.2).isSome = true := by
    intro p hp
    rcases envComponents_mem df i p hp with ⟨hpe, he⟩ | ⟨wc, rest, hwc, hpe⟩ |
      ⟨ac, rest, hac, hpe⟩ | ⟨cc, rest, hcc, hpe⟩
    · rw [hpe]
      exact normAt_isSome df _ true i hwf
        (hcolOK _ he (Or.inl (by decide))) he hi
    · have hwcmem : wc ∈ waterColsOf df := by rw [hwc]; exact List.mem_cons_self _ _
      have hname : wc ∈ colNames df := (List.mem_filter.1 hwcmem).1
      have hused : usedNum df wc := Or.inr (by
        unfold envUsedCols
        rw [hwc]
        simp)
      rw [hpe]
      exact normAt_isSome df _ true i hwf (hcolOK _ hname hused) hname hi
    · have hacmem : ac ∈ airColsOf df := by rw [hac]; exact List.mem_cons_self _ _
      have hname : ac ∈ colNames df := (List.mem_filter.1 hacmem).1
      have hused : usedNum df ac := Or.inr (by
        unfold envUsedCols
        rw [hac]
        simp)
      rw [hpe]
      exact normAt_isSome df _ false i hwf (hcolOK _ hname hused) hname hi
    · have hccmem : cc ∈ carbonColsOf df := by rw [hcc]; exact List.mem_cons_self _ _
      have hname : cc ∈ colNames df := (List.mem_filter.1 hccmem).1
      have hused : usedNum df cc := Or.inr (by
        unfold envUsedCols
        rw [hcc]
        simp)
      rw [hpe]
      exact normAt_isSome df _ false i hwf (hcolOK _ hname hused) hname hi
  show ∃ v, envCombine defaultEnvWeights (envComponents df i) = Except.ok (some v)
  unfold envCombine
  generalize hP : (defaultEnvWeights.map Prod.fst).filter
    (fun k => ((envComponents df i).map Prod.fst).contains k) = P
  by_cases hPE : P.isEmpty = true
  · rw [if_pos hPE]
    exact ⟨50, rfl⟩
  · rw [if_neg hPE]
    have hPsub : ∀ k ∈ P, k ∈ defaultEnvWeights.map Prod.fst ∧
        k ∈ (envComponents df i).map Prod.fst := by
      intro k hk
      rw [← hP] at hk
      exact ⟨(List.mem_filter.1 hk).1, List.elem_iff.mp (List.mem_filter.1 hk).2⟩
    have hPne : P ≠ [] := fun hh => by rw [hh] at hPE; exact hPE rfl
    have hdw : ∀ k ∈ defaultEnvWeights.map Prod.fst, 0 < weightD defaultEnvWeights k := by
      decide
    have hpos : ∀ x ∈ P.map (fun k => weightD defaultEnvWeights k), 0 < x := by
      intro x hx
      rcases List.mem_map.1 hx with ⟨k, hk, hkx⟩
      rw [← hkx]
      exact hdw k (hPsub k hk).1
    have hsum : 0 < (P.map (fun k => weightD defaultEnvWeights k)).sum :=
      List.sum_pos _ hpos (by simpa using hPne)
    rw [if_neg hsum.ne']
    have hfold := foldl_oadd_isSome P
      (fun k => omul (compD (envComponents df i) k)
        (some (weightD defaultEnvWeights k /
          (P.map (fun k => weightD defaultEnvWeights k)).sum)))
      (fun k hk => omul_isSome _ _
        (compD_isSome _ _ (hPsub k hk).2 hcompsome) rfl) (some 0) rfl
    obtain ⟨sc, hsc⟩ := Option.isSome_iff_exists.1 hfold
    exact ⟨roundQ 2 sc, by rw [hsc]; rfl⟩

theorem find?_map_keyed {β γ : Type} (l : List (String × β)) (F : String × β → String × γ)
    (hF : ∀ p, (F p).1 = p.1) (key : String) :
    (l.map F).find? (fun p => p.1 == key) =
      (l.find? (fun p => p.1 == key)).map F := by
  rw [List.find?_map]
  apply congrArg (Option.map F)
  apply find?_congr_mem
  intro x hx
  show ((F x).1 == key) = (x.1 == key)
  rw [hF x]

theorem WFFrame_setCol (df : DataFrame) (n : String) (v : List (Option Val))
    (hwf : WFFrame df) (hv : v.length = df.nrows) : WFFrame (setCol df n v) := by
  intro p hp
  rw [nrows_setCol]
  unfold setCol at hp
  by_cases h : df.cols.any (fun q => q.1 == n) = true
  · rw [if_pos h] at hp
    simp only at hp
    rcases List.mem_map.1 hp with ⟨q, hq, hqp⟩
    by_cases hqn : (q.1 == n) = true
    · rw [if_pos hqn] at hqp
      rw [← hqp]
      exact hv
    · rw [if_neg hqn] at hqp
      rw [← hqp]
      exact hwf q hq
  · rw [if_neg h] at hp
    simp only at hp
    rcases List.mem_append.1 hp with hq | hq
    · exact hwf p hq
    · simp only [List.mem_singleton] at hq
      rw [hq]
      exact hv

theorem map_range_getD (n i : Nat) (g : Nat → Option ℚ) (hi : i < n) :
    ((List.range n).map g).getD i none = g i := by
  rw [List.getD_eq_getElem?_getD, List.getElem?_map, List.getElem?_range hi]
  rfl

theorem ncolAt_isSome (f1 : DataFrame) (hwf1 : WFFrame f1)
    (hcond : ∀ key ∈ numericKeys, key ∈ colNames f1 → colOK (getColD f1 key))
    (key : String) (hkey : key ∈ numericKeys) (i : Nat) (hi : i < f1.nrows) :
    (ncolAt (normColsFor f1) key i).isSome = true := by
  unfold ncolAt normColsFor
  rw [find?_map_keyed colMap
    (fun kb => (kb.1, if kb.1 ∈ colNames f1 then
      minmaxNormalize (numCol (getColD f1 kb.1)) kb.2
      else List.replicate f1.nrows (some 50))) (fun p => rfl) key]
  cases hf : colMap.find? (fun p => p.1 == key) with
  | none =>
    exfalso
    rw [List.find?_eq_none] at hf
    rcases List.mem_map.1 hkey with ⟨kb, hkb, hkbk⟩
    exact hf kb hkb (by simp [hkbk])
  | some kb =>
    have hkbk : kb.1 = key :=
      eq_of_beq (List.find?_some (p := fun (q : String × Bool) => q.1 == key) hf)
    simp only [Option.map_some', Option.getD_some]
    by_cases hmem : kb.1 ∈ colNames f1
    · rw [if_pos hmem]
      apply minmax_isSome _ _ (numCol_cond _ (hcond kb.1 (hkbk ▸ hkey) hmem))
      rw [numCol_length, hwf1 _ (getColD_spec f1 kb.1 hmem)]
      exact hi
    · rw [if_neg hmem, getD_replicate _ _ _ _ hi]
      rfl

theorem rawScoreAt_isSome (w : List (String × ℚ)) (stad leed waste future : List ℚ)
    (ncols : List (String × List (Option ℚ))) (envcol : List (Option ℚ)) (i : Nat)
    (hn : ∀ key ∈ numericKeys, (ncolAt ncols key i).isSome = true)
    (he : (envcol.getD i none).isSome = true) :
    (rawScoreAt w stad leed waste future ncols envcol i).isSome = true := by
  unfold rawScoreAt
  apply oadd_isSome
  · exact foldl_oadd_isSome numericKeys
      (fun key => omul (some (weightD w key)) (ncolAt ncols key i))
      (fun k hk => omul_isSome _ _ rfl (hn k hk)) _ rfl
  · exact omul_isSome _ _ rfl he

theorem rawColFor_length (w : List (String × ℚ)) (f1 : DataFrame) (rub : Rubric) :
    (rawColFor w f1 rub).length = f1.nrows := by
  unfold rawColFor
  simp

theorem zColOf_isSome (raws : List (Option ℚ)) (i : Nat) (hi : i < raws.length)
    (hsome : ∀ j, j < raws.length → (raws.getD j none).isSome = true) :
    ((zColOf raws).getD i none).isSome = true := by
  unfold zColOf
  by_cases h1 : (raws.filterMap id).length ≤ 1
  · rw [if_pos h1, getD_replicate _ _ _ _ hi]
    rfl
  · by_cases h2 : sampleVarQ raws = 0
    · rw [if_neg h1, if_pos h2, getD_replicate _ _ _ _ hi]
      rfl
    · rw [if_neg h1, if_neg h2, getD_map_opt]
      have := hsome i hi
      cases hsv : raws.getD i none with
      | none => rw [hsv] at this; simp at this
      | some u => rfl

/-- C2 (amended): provided every numerically-read column (the eight
recognized numeric keys and the environment-detected columns) is either
entirely missing or entirely numeric, the default-argument pipeline run
succeeds and every row receives non-null `Raw_Score`, `Sustainability_Z`
and `Sustainability_Z_Scaled` values.  (A numeric column with some but
not all values missing poisons those rows with NaN; see the
counterexample.) -/
theorem C2_no_null_scores (df : DataFrame) (hwf : WFFrame df)
    (hcols : ∀ p ∈ df.cols, usedNum df p.1 → colOK p.2) :
    ∃ res, calcScores (plainFrame df) none none (2/5) [] = some res ∧
      ∀ i, i < df.nrows → (rawAt res i).isSome = true ∧ (zAt res i).isSome = true ∧
        (zsAt res i).isSome = true := by
  obtain ⟨envc, henvc, hclen, hcsome⟩ := mapM_env_ok (List.range df.nrows)
    (fun i => computeEnvConditionMetric df i none)
    (fun i hi => envMetric_default_ok df hwf hcols i (List.mem_range.1 hi))
  have henvcol : envColFor df none = Except.ok envc := henvc
  have hclen' : envc.length = df.nrows := by rw [hclen]; simp
  obtain ⟨w, hw⟩ : ∃ w, normalizeWeights (overrideWeights none (2/5)) = some w := ⟨_, rfl⟩
  have hf1wf : WFFrame (envFrame df envc) :=
    WFFrame_setCol df _ _ hwf (by rw [List.length_map]; exact hclen')
  have hf1n : (envFrame df envc).nrows = df.nrows := nrows_setCol df _ _
  have hnotenv : ∀ k ∈ numericKeys, k ≠ "Env_Conditions" := by decide
  have hf1cond : ∀ key ∈ numericKeys, key ∈ colNames (envFrame df envc) →
      colOK (getColD (envFrame df envc) key) := by
    intro key hkey hmem
    have hne := hnotenv key hkey
    unfold envFrame
    rw [getColD_setCol_ne df _ key _ hne]
    have hmemdf : key ∈ colNames df := by
      rw [← mem_colNames_setCol_ne df "Env_Conditions" key (envc.map (Option.map Val.num))
        hne]
      exact hmem
    exact hcols _ (getColD_spec df key hmemdf) (Or.inl hkey)
  have henvread : numCol (getColD (envFrame df envc) "Env_Conditions") = envc := by
    unfold envFrame
    rw [getColD_setCol_self]
    exact numCol_map_num _
  have hmapround : ∀ (o : Option ℚ), o.isSome = true →
      (o.map (roundQ 3)).isSome = true := by
    intro o ho
    cases o with
    | none => simp at ho
    | some x => rfl
  have hrawsome : ∀ i, i < df.nrows →
      ((rawColFor w (envFrame df envc) []).getD i none).isSome = true := by
    intro i hi
    unfold rawColFor
    rw [map_range_getD _ _ _ (by rw [hf1n]; exact hi)]
    apply hmapround
    apply rawScoreAt_isSome
    · intro key hkey
      exact ncolAt_isSome (envFrame df envc) hf1wf hf1cond key hkey i
        (by rw [hf1n]; exact hi)
    · rw [henvread]
      exact hcsome i (by rw [hclen']; exact hi)
  have hrawlen : (rawColFor w (envFrame df envc) []).length = df.nrows := by
    rw [rawColFor_length, hf1n]
  refine ⟨{ frame := rawFrame w (envFrame df envc) [],
            z := some (zColOf (rawColFor w (envFrame df envc) [])),
            zs := some ((zColOf (rawColFor w (envFrame df envc) [])).map
              (Option.map (fun t => t * 10 + 50))) }, ?_, ?_⟩
  · show calcScores (plainFrame df) none none (2/5) [] = _
    unfold calcScores
    rw [show (plainFrame df).frame = df from rfl, hw, henvcol]
    show (some (⟨rawFrame w (envFrame df envc) [],
      some (zColOf (numCol (getColD (rawFrame w (envFrame df envc) []) "Raw_Score"))),
      some ((zColOf (numCol (getColD (rawFrame w (envFrame df envc) [])
        "Raw_Score"))).map (Option.map (fun t => t * 10 + 50)))⟩ : ScoredFrame) :
      Option ScoredFrame) = _
    rw [rawListOf_rawFrame]
  · intro i hi
    refine ⟨?_, ?_, ?_⟩
    · show ((numCol (getColD (rawFrame w (envFrame df envc) []) "Raw_Score")).getD i
        none).isSome = true
      rw [rawListOf_rawFrame]
      exact hrawsome i hi
    · show ((zColOf (rawColFor w (envFrame df envc) [])).getD i none).isSome = true
      exact zColOf_isSome _ i (by rw [hrawlen]; exact hi)
        (fun j hj => hrawsome j (by rw [← hrawlen]; exact hj))
    · show (((zColOf (rawColFor w (envFrame df envc) [])).map
        (Option.map (fun t => t * 10 + 50))).getD i none).isSome = true
      rw [getD_map_opt]
      have := zColOf_isSome (rawColFor w (envFrame df envc) []) i
        (by rw [hrawlen]; exact hi)
        (fun j hj => hrawsome j (by rw [← hrawlen]; exact hj))
      cases hz : (zColOf (rawColFor w (envFrame df envc) [])).getD i none with
      | none => rw [hz] at this; simp at this
      | some u => rfl

/-- Witness for C2's amended theorem on `cdf2`, a rectangular frame whose
single numeric column is fully present. -/
theorem C2_no_null_scores_witness :
    ∃ res, calcScores (plainFrame cdf2) none none (2/5) [] = some res ∧
      ∀ i, i < cdf2.nrows → (rawAt res i).isSome = true ∧ (zAt res i).isSome = true ∧
        (zsAt res i).isSome = true :=
  C2_no_null_scores cdf2 (by unfold WFFrame; decide)
    (by unfold usedNum colOK; decide)

/-- C2 counterexample: on `cdfPartial` — whose recognized numeric column
has one missing value among defined ones — row 0 receives NaN (`none`)
`Raw_Score`, `Sustainability_Z` and `Sustainability_Z_Scaled`, refuting
the claim that every row of every dataset gets non-null values. -/
theorem C2_partial_missing_cex :
    (calcScores (plainFrame cdfPartial) none none (2/5) []).isSome = true ∧
    rawAt (scoreDefault cdfPartial) 0 = none ∧
    zAt (scoreDefault cdfPartial) 0 = none ∧
    zsAt (scoreDefault cdfPartial) 0 = none := by
  have h : calcScores (plainFrame cdfPartial) none none (2/5) [] =
      some (scoreDefault cdfPartial) := by rfl
  obtain ⟨w, envc, hw, he, hf, hz, hzs⟩ := calcScores_some_inv _ _ _ _ _ _ h
  have hraw := rawListOf_of_inv _ _ _ _ hf
  rw [← hraw] at hz hzs
  have hzf := zColOf_formula (rawListOf (scoreDefault cdfPartial))
    (by decide) (by decide)
  have h0 : (rawListOf (scoreDefault cdfPartial)).getD 0 none = none := by decide
  refine ⟨by rfl, by decide, ?_, ?_⟩
  · show (((scoreDefault cdfPartial).z.getD []).getD 0 none) = none
    rw [hz, Option.getD_some, hzf, getD_map_opt, h0]
    rfl
  · show (((scoreDefault cdfPartial).zs.getD []).getD 0 none) = none
    rw [hzs, Option.getD_some, hzf, getD_map_opt, getD_map_opt, h0]
    rfl

/-! Heap model: the call allocates one fresh cell and writes only there
(claim C9). -/

theorem heapGetAppend {α : Type} [Inhabited α] (h : List α) (x : α) :
    (h ++ [x]).getD h.length default = x := by
  rw [List.getD_eq_getElem?_getD, List.getElem?_append_right (le_refl h.length)]
  simp

theorem heapGetAppendLt {α : Type} [Inhabited α] (h : List α) (x : α) (i : Nat)
    (hi : i < h.length) : (h ++ [x]).getD i default = h.getD i default := by
  rw [List.getD_eq_getElem?_getD, List.getD_eq_getElem?_getD, List.getElem?_append,
    if_pos hi]

theorem heapSetAppend {α : Type} (h : List α) (x y : α) :
    (h ++ [x]).set h.length y = h ++ [y] := by
  induction h with
  | nil => rfl
  | cons a h ih =>
    simp only [List.cons_append, List.length_cons, List.set_cons_succ, ih]

theorem mem_colNames_setCol_self (df : DataFrame) (n : String) (v : List (Option Val)) :
    n ∈ colNames (setCol df n v) := by
  unfold setCol colNames
  by_cases h : df.cols.any (fun p => p.1 == n) = true
  · rw [if_pos h]
    rcases List.any_eq_true.1 h with ⟨p, hp, hpn⟩
    show n ∈ (df.cols.map (fun q => if q.1 == n then (n, v) else q)).map Prod.fst
    refine List.mem_map.2 ⟨(n, v), List.mem_map.2 ⟨p, hp, ?_⟩, rfl⟩
    rw [if_pos hpn]
  · rw [if_neg h]
    show n ∈ (df.cols ++ [(n, v)]).map Prod.fst
    rw [List.map_append, List.mem_append]
    right
    simp

theorem calcScores_columns (sf : ScoredFrame) (user ecw : Option (List (String × ℚ)))
    (envw : ℚ) (rub : Rubric) (res : ScoredFrame)
    (h : calcScores sf user ecw envw rub = some res) :
    "Env_Conditions" ∈ colNames res.frame ∧ "Raw_Score" ∈ colNames res.frame ∧
    res.z.isSome = true ∧ res.zs.isSome = true := by
  obtain ⟨w, envc, hw, he, hf, hz, hzs⟩ := calcScores_some_inv _ _ _ _ _ _ h
  refine ⟨?_, ?_, by rw [hz]; rfl, by rw [hzs]; rfl⟩
  · rw [hf]
    unfold rawFrame
    rw [mem_colNames_setCol_ne _ _ _ _ (by decide)]
    unfold envFrame
    exact mem_colNames_setCol_self _ _ _
  · rw [hf]
    unfold rawFrame
    exact mem_colNames_setCol_self _ _ _

/-- C9: in the heap model of `calculate_sustainability_scores`, the call
copies its argument (line 148) and assigns columns only on the copy: every
pre-existing heap cell — in particular the caller's frame — is unchanged
after the call, and on success the returned reference is a fresh cell
distinct from the argument's, holding exactly the pure pipeline result,
which carries the added `Env_Conditions`, `Raw_Score`, `Sustainability_Z`
and `Sustainability_Z_Scaled` columns. -/
theorem C9_caller_unchanged (h : List ScoredFrame) (r : Nat)
    (user ecw : Option (List (String × ℚ))) (envw : ℚ) (rub : Rubric)
    (hr : r < h.length) :
    (∀ i, i < h.length → (heapCall h r user ecw envw rub).1.getD i default =
      h.getD i default) ∧
    (∀ ref, (heapCall h r user ecw envw rub).2 = some ref →
      ref = h.length ∧ r ≠ ref ∧
      calcScores (h.getD r default) user ecw envw rub =
        some ((heapCall h r user ecw envw rub).1.getD ref default)) ∧
    (∀ res, calcScores (h.getD r default) user ecw envw rub = some res →
      "Env_Conditions" ∈ colNames res.frame ∧ "Raw_Score" ∈ colNames res.frame ∧
      res.z.isSome = true ∧ res.zs.isSome = true) := by
  refine ⟨?_, ?_, fun res hres => calcScores_columns _ _ _ _ _ _ hres⟩
  all_goals
    cases hw : normalizeWeights (overrideWeights user envw) with
    | none =>
      have hred : heapCall h r user ecw envw rub = (h ++ [h.getD r default], none) := by
        simp only [heapCall, hw]
      first
      | (intro i hi
         rw [hred]
         exact heapGetAppendLt h _ i hi)
      | (intro ref href
         rw [hred] at href
         simp at href)
    | some w =>
      cases he : envColFor (h.getD r default).frame ecw with
      | error e =>
        have hred : heapCall h r user ecw envw rub = (h ++ [h.getD r default], none) := by
          simp only [heapCall, hw, heapGetAppend, he]
        first
        | (intro i hi
           rw [hred]
           exact heapGetAppendLt h _ i hi)
        | (intro ref href
           rw [hred] at href
           simp at href)
      | ok envc =>
        have hred : heapCall h r user ecw envw rub =
            (h ++ [(⟨rawFrame w (envFrame (h.getD r default).frame envc) rub,
              some (zColOf (numCol (getColD (rawFrame w
                (envFrame (h.getD r default).frame envc) rub) "Raw_Score"))),
              some ((zColOf (numCol (getColD (rawFrame w
                (envFrame (h.getD r default).frame envc) rub) "Raw_Score"))).map
                (Option.map (fun t => t * 10 + 50)))⟩ : ScoredFrame)],
              some h.length) := by
          simp only [heapCall, hw, he, heapGetAppend, heapSetAppend, Option.getD_some]
        have hcalc : calcScores (h.getD r default) user ecw envw rub =
            some (⟨rawFrame w (envFrame (h.getD r default).frame envc) rub,
              some (zColOf (numCol (getColD (rawFrame w
                (envFrame (h.getD r default).frame envc) rub) "Raw_Score"))),
              some ((zColOf (numCol (getColD (rawFrame w
                (envFrame (h.getD r default).frame envc) rub) "Raw_Score"))).map
                (Option.map (fun t => t * 10 + 50)))⟩ : ScoredFrame) := by
          simp only [calcScores, hw, he]
        first
        | (intro i hi
           rw [hred]
           exact heapGetAppendLt h _ i hi)
        | (intro ref href
           rw [hred] at href
           simp only [Option.some.injEq] at href
           refine ⟨href.symm, by omega, ?_⟩
           rw [hcalc, hred, ← href]
           rw [heapGetAppend])

/-- Witness for C9: a one-cell heap holding the two-row fixture, scored in
place at reference 0 with the default arguments. -/
theorem C9_caller_unchanged_witness :
    (∀ i, i < [plainFrame cdf2].length →
      (heapCall [plainFrame cdf2] 0 none none (2/5) []).1.getD i default =
        [plainFrame cdf2].getD i default) ∧
    (∀ ref, (heapCall [plainFrame cdf2] 0 none none (2/5) []).2 = some ref →
      ref = [plainFrame cdf2].length ∧ 0 ≠ ref ∧
      calcScores ([plainFrame cdf2].getD 0 default) none none (2/5) [] =
        some ((heapCall [plainFrame cdf2] 0 none none (2/5) []).1.getD ref default)) ∧
    (∀ res, calcScores ([plainFrame cdf2].getD 0 default) none none (2/5) [] = some res →
      "Env_Conditions" ∈ colNames res.frame ∧ "Raw_Score" ∈ colNames res.frame ∧
      res.z.isSome = true ∧ res.zs.isSome = true) :=
  C9_caller_unchanged [plainFrame cdf2] 0 none none (2/5) [] (by decide)

end Himcm
